import Mathlib

/-!
Verification of the `reader` full-text-search core (`_search.py`, `_utils.py`,
`_types.py`) against its natural-language specification.

The Python sources are shallowly embedded: pure functions become Lean
functions, the SQLite tables become explicit list-valued state, triggers and
chunked processors become state-transforming functions, and generator loops
become fuel-indexed recursions (the fuel is always instantiated with a bound
large enough for the loop's own termination argument).
-/

namespace Reader

/-! ## Pagination (`_utils.py`: `join_paginated_iter`) -/

/-- Loop body of `join_paginated_iter` (`_utils.py`, lines 98-118), for the
chunked case (`chunk_size ≠ 0`).  The Python `while True` loop is embedded
with explicit fuel; `remaining`/`limit` follow the source exactly
(`max(0, remaining - to_get)` is truncated `Nat` subtraction). -/
def jpiLoop {υ κ : Type} (get : Nat → Option κ → List (υ × κ)) (chunk_size : Nat) :
    Nat → Option κ → Nat → Nat → List υ
  | 0, _, _, _ => []
  | fuel + 1, last, limit, remaining =>
    if limit ≠ 0 ∧ remaining = 0 then []
    else
      let to_get := if limit ≠ 0 then min remaining chunk_size else chunk_size
      let remaining' := if limit ≠ 0 then remaining - to_get else remaining
      let things := get to_get last
      match things.getLast? with
      | none => []
      | some lastThing =>
        things.map Prod.fst ++
          (if things.length < to_get then []
           else jpiLoop get chunk_size fuel (some lastThing.2) limit remaining')

/-- `join_paginated_iter` (`_utils.py`, lines 61-118): when `chunk_size = 0`
the query is not chunked (one call with `limit`); otherwise the keyset loop
runs, resuming each call from the key of the last returned row. -/
def join_paginated_iter {υ κ : Type} (get : Nat → Option κ → List (υ × κ))
    (chunk_size : Nat) (last : Option κ) (limit : Nat) (fuel : Nat) : List υ :=
  if chunk_size = 0 then (get limit last).map Prod.fst
  else jpiLoop get chunk_size fuel last limit limit

/-- Lexicographic strict order on codepoint lists: the SQLite BINARY text
collation used to compare `_feed`/`_id` values in `ORDER BY`. -/
def lexLtN : List Nat → List Nat → Bool
  | _, [] => false
  | [], _ :: _ => true
  | a :: as, b :: bs => a < b || (a == b && lexLtN as bs)

/-- BINARY-collation comparison of two strings via their codepoints. -/
def strLt (s t : String) : Bool :=
  lexLtN (s.toList.map Char.toNat) (t.toList.map Char.toNat)

/-- Sort key of a relevance-sorted search row: (rank, feed URL, entry id);
`make_search_entries_query` orders by `rank, search._feed, search._id`
(scrolling window keyed on that triple). Rank is modelled as an integer
(lower is more relevant). -/
abbrev SearchKey : Type := Int × String × String

/-- Strict lexicographic order on search keys: rank, then feed URL, then
entry id (the deterministic tie-break of the relevance sort). -/
def keyLt (a b : SearchKey) : Bool :=
  a.1 < b.1 || (a.1 == b.1 && (strLt a.2.1 b.2.1 || (a.2.1 == b.2.1 && strLt a.2.2 b.2.2)))

/-- Cursor comparison: a `none` cursor (no `starting_after`) admits every row;
a `some k` cursor admits exactly the rows with key strictly after `k`. -/
def cursorLt {κ : Type} (lt : κ → κ → Bool) : Option κ → κ → Bool
  | none, _ => true
  | some a, b => lt a b

/-- Modelled from the spec: keyset pagination (`paginated_query` of
`_sql_utils.py` is not among the sources).  A page call over a fixed
sorted result set returns the rows strictly after the cursor, at most `n`
of them (`n = 0` means no limit, matching the `count_to_ten(0, ...)`
contract in the `join_paginated_iter` docstring). -/
def pageAfter {υ κ : Type} (lt : κ → κ → Bool) (rows : List (υ × κ))
    (n : Nat) (last : Option κ) : List (υ × κ) :=
  let after := rows.filter (fun p => cursorLt lt last p.2)
  if n = 0 then after else after.take n

/-- Sort modes accepted by `search_entries` (`SearchSortOrder`). -/
inductive SSort : Type
  | relevant
  | recent
  | random
deriving DecidableEq, Repr

/-- `Search.search_entries` (`_search.py`, lines 751-791), over a fixed
result set: `relevant`/`recent` go through `join_paginated_iter` with the
configured chunk size and the caller's limit (`limit or 0`); `random`
returns a single page of `min(limit, chunk_size or limit) if limit else
chunk_size` rows and drops the cursors. -/
def search_entries {υ : Type} (rows : List (υ × SearchKey)) (sort : SSort)
    (chunk_size limit fuel : Nat) : List υ :=
  match sort with
  | .relevant | .recent =>
    join_paginated_iter (pageAfter keyLt rows) chunk_size none limit fuel
  | .random =>
    let n := if limit ≠ 0 then min limit (if chunk_size ≠ 0 then chunk_size else limit)
             else chunk_size
    (pageAfter keyLt rows n none).map Prod.fst

/-! ## Pagination lemmas -/

lemma lexLtN_trans : ∀ a b c : List Nat,
    lexLtN a b = true → lexLtN b c = true → lexLtN a c = true := by
  intro a
  induction a with
  | nil =>
    intro b c hab hbc
    cases b with
    | nil => simp [lexLtN] at hab
    | cons y ys =>
      cases c with
      | nil => simp [lexLtN] at hbc
      | cons z zs => simp [lexLtN]
  | cons x xs ih =>
    intro b c hab hbc
    cases b with
    | nil => simp [lexLtN] at hab
    | cons y ys =>
      cases c with
      | nil => simp [lexLtN] at hbc
      | cons z zs =>
        simp only [lexLtN, Bool.or_eq_true, Bool.and_eq_true, decide_eq_true_eq,
          beq_iff_eq] at hab hbc ⊢
        rcases hab with h | ⟨rfl, h⟩
        · rcases hbc with g | ⟨rfl, g⟩
          · exact Or.inl (Nat.lt_trans h g)
          · exact Or.inl h
        · rcases hbc with g | ⟨rfl, g⟩
          · exact Or.inl g
          · exact Or.inr ⟨rfl, ih ys zs h g⟩

lemma lexLtN_irrefl : ∀ a : List Nat, lexLtN a a = false := by
  intro a
  induction a with
  | nil => rfl
  | cons x xs ih => simp [lexLtN, ih]

lemma strLt_trans (a b c : String) (hab : strLt a b = true) (hbc : strLt b c = true) :
    strLt a c = true :=
  lexLtN_trans _ _ _ hab hbc

lemma strLt_irrefl (a : String) : strLt a a = false :=
  lexLtN_irrefl _

lemma keyLt_trans : ∀ a b c : SearchKey,
    keyLt a b = true → keyLt b c = true → keyLt a c = true := by
  rintro ⟨a1, a2, a3⟩ ⟨b1, b2, b3⟩ ⟨c1, c2, c3⟩ hab hbc
  simp only [keyLt, Bool.or_eq_true, Bool.and_eq_true, decide_eq_true_eq,
    beq_iff_eq] at hab hbc ⊢
  rcases hab with h1 | ⟨rfl, hab2⟩
  · rcases hbc with g1 | ⟨rfl, _⟩
    · exact Or.inl (lt_trans h1 g1)
    · exact Or.inl h1
  · rcases hbc with g1 | ⟨rfl, hbc2⟩
    · exact Or.inl g1
    · refine Or.inr ⟨rfl, ?_⟩
      rcases hab2 with h2 | ⟨rfl, h3⟩
      · rcases hbc2 with g2 | ⟨rfl, _⟩
        · exact Or.inl (strLt_trans _ _ _ h2 g2)
        · exact Or.inl h2
      · rcases hbc2 with g2 | ⟨rfl, g3⟩
        · exact Or.inl g2
        · exact Or.inr ⟨rfl, strLt_trans _ _ _ h3 g3⟩

lemma keyLt_irrefl : ∀ a : SearchKey, keyLt a a = false := by
  rintro ⟨a1, a2, a3⟩
  simp [keyLt, strLt_irrefl]

lemma lt_asymm_of {κ : Type} {lt : κ → κ → Bool}
    (htrans : ∀ a b c, lt a b = true → lt b c = true → lt a c = true)
    (hirr : ∀ a, lt a a = false) {a b : κ} (h : lt a b = true) : lt b a = false := by
  cases hba : lt b a with
  | false => rfl
  | true =>
    have := htrans a b a h hba
    rw [hirr] at this
    exact absurd this (by simp)

/-- In a strictly sorted list, filtering for the keys after the last element
of `take n` leaves exactly `drop n` (for `1 ≤ n ≤ length`). -/
lemma filter_lt_getLast_take {υ κ : Type} {lt : κ → κ → Bool}
    (htrans : ∀ a b c, lt a b = true → lt b c = true → lt a c = true)
    (hirr : ∀ a, lt a a = false) :
    ∀ (l : List (υ × κ)) (n : Nat), l.Pairwise (fun p q => lt p.2 q.2 = true) →
      1 ≤ n → n ≤ l.length → ∀ p : υ × κ, (l.take n).getLast? = some p →
      l.filter (fun q => lt p.2 q.2) = l.drop n := by
  intro l
  induction l with
  | nil =>
    intro n _ h1 hn p _
    simp at hn
    omega
  | cons a t ih =>
    intro n hpw h1 hn p hp
    cases n with
    | zero => omega
    | succ m =>
      cases m with
      | zero =>
        have hpa : a = p := by simpa using hp
        subst hpa
        have hall : ∀ q ∈ t, lt a.2 q.2 = true := (List.pairwise_cons.mp hpw).1
        calc (a :: t).filter (fun q => lt a.2 q.2)
            = t.filter (fun q => lt a.2 q.2) := by simp [List.filter_cons, hirr a.2]
          _ = t := List.filter_eq_self.mpr hall
          _ = (a :: t).drop 1 := by simp
      | succ k =>
        cases t with
        | nil => simp at hn
        | cons b t' =>
          have hp' : ((b :: t').take (k + 1)).getLast? = some p := by
            simpa [List.take_succ_cons] using hp
          have hpmem : p ∈ b :: t' :=
            List.mem_of_mem_take (List.mem_of_mem_getLast? (Option.mem_def.mpr hp'))
          have hlt : lt a.2 p.2 = true := (List.pairwise_cons.mp hpw).1 p hpmem
          have hfa : lt p.2 a.2 = false := lt_asymm_of htrans hirr hlt
          have hn' : k + 1 ≤ (b :: t').length := by
            simp only [List.length_cons] at hn ⊢
            omega
          have ihres := ih (k + 1) (List.pairwise_cons.mp hpw).2 (by omega) hn' p hp'
          calc (a :: b :: t').filter (fun q => lt p.2 q.2)
              = (b :: t').filter (fun q => lt p.2 q.2) := by simp [List.filter_cons, hfa]
            _ = (b :: t').drop (k + 1) := ihres
            _ = (a :: b :: t').drop (k + 2) := by simp

/-- Core pagination lemma: over a strictly sorted fixed result set, the
keyset-cursor loop of `join_paginated_iter` (no limit) emits exactly the
rows after the initial cursor, in order. -/
lemma jpiLoop_pageAfter_eq {υ κ : Type} {lt : κ → κ → Bool}
    (htrans : ∀ a b c, lt a b = true → lt b c = true → lt a c = true)
    (hirr : ∀ a, lt a a = false)
    (rows : List (υ × κ)) (hs : rows.Pairwise (fun p q => lt p.2 q.2 = true))
    (cs : Nat) (hcs : 1 ≤ cs) :
    ∀ (fuel : Nat) (last : Option κ),
      (rows.filter (fun p => cursorLt lt last p.2)).length < fuel →
      jpiLoop (pageAfter lt rows) cs fuel last 0 0 =
        (rows.filter (fun p => cursorLt lt last p.2)).map Prod.fst := by
  intro fuel
  induction fuel with
  | zero =>
    intro last h
    omega
  | succ fuel ih =>
    intro last hfuel
    have hcs0 : ¬ cs = 0 := by omega
    rw [jpiLoop]
    rw [if_neg (by simp)]
    simp only [ne_eq, not_true_eq_false, if_false, ite_false]
    set F := rows.filter (fun p => cursorLt lt last p.2) with hF
    have hpage : pageAfter lt rows cs last = F.take cs := by
      rw [pageAfter, if_neg hcs0]
    rw [hpage]
    cases hg : (F.take cs).getLast? with
    | none =>
      have htn : F.take cs = [] := List.getLast?_eq_none_iff.mp hg
      have hFnil : F = [] := by
        rcases List.take_eq_nil_iff.mp htn with h | h
        · exact absurd h hcs0
        · exact h
      simp [hFnil]
    | some p =>
      dsimp only
      by_cases hlen : F.length < cs
      · have htake : F.take cs = F := List.take_of_length_le (Nat.le_of_lt hlen)
        rw [htake, if_pos hlen]
        simp
      · push_neg at hlen
        have hlen2 : (F.take cs).length = cs := by
          simp only [List.length_take]
          omega
        rw [hlen2, if_neg (Nat.lt_irrefl cs)]
        have hpmemF : p ∈ F :=
          List.mem_of_mem_take (List.mem_of_mem_getLast? (Option.mem_def.mpr hg))
        have hcur : cursorLt lt last p.2 = true := by
          rw [hF] at hpmemF
          exact (List.mem_filter.mp hpmemF).2
        have hFs : F.Pairwise (fun p q => lt p.2 q.2 = true) := hs.filter _
        have hcomm : rows.filter (fun q => cursorLt lt (some p.2) q.2) =
            F.filter (fun q => lt p.2 q.2) := by
          rw [hF, List.filter_filter]
          refine List.filter_congr ?_
          intro x _
          show lt p.2 x.2 = (lt p.2 x.2 && cursorLt lt last x.2)
          cases hpx : lt p.2 x.2 with
          | false => simp [hpx]
          | true =>
            have hlx : cursorLt lt last x.2 = true := by
              cases last with
              | none => rfl
              | some k =>
                have hkp : lt k p.2 = true := hcur
                exact htrans _ _ _ hkp hpx
            simp [hpx, hlx]
        have hdrop : F.filter (fun q => lt p.2 q.2) = F.drop cs :=
          filter_lt_getLast_take htrans hirr F cs hFs hcs hlen p hg
        have hfuel' : (rows.filter (fun q => cursorLt lt (some p.2) q.2)).length < fuel := by
          rw [hcomm, hdrop]
          simp only [List.length_drop]
          omega
        rw [ih (some p.2) hfuel', hcomm, hdrop, ← List.map_append, List.take_append_drop]

/-- Unfolding of one loop iteration when a nonzero `limit` is active and
rows are still wanted. -/
lemma jpiLoop_succ_limit_ne {υ κ : Type} (get : Nat → Option κ → List (υ × κ))
    (cs fuel : Nat) (last : Option κ) (limit remaining : Nat)
    (hlim : limit ≠ 0) (hr : remaining ≠ 0) :
    jpiLoop get cs (fuel + 1) last limit remaining =
      match (get (min remaining cs) last).getLast? with
      | none => []
      | some lastThing =>
        (get (min remaining cs) last).map Prod.fst ++
          (if (get (min remaining cs) last).length < min remaining cs then []
           else jpiLoop get cs fuel (some lastThing.2) limit (remaining - min remaining cs)) := by
  rw [jpiLoop, if_neg (by tauto)]
  dsimp only
  rw [if_pos hlim, if_pos hlim]

/-- Output-size bound for the limit-carrying loop of `join_paginated_iter`:
if every page returns at most as many rows as requested, the loop emits at
most `remaining` rows. -/
lemma jpiLoop_length_le {υ κ : Type} (get : Nat → Option κ → List (υ × κ)) (cs : Nat)
    (hcs : cs ≠ 0) (hget : ∀ n l, n ≠ 0 → (get n l).length ≤ n) :
    ∀ (fuel : Nat) (last : Option κ) (limit remaining : Nat), limit ≠ 0 →
      (jpiLoop get cs fuel last limit remaining).length ≤ remaining := by
  intro fuel
  induction fuel with
  | zero =>
    intro last limit remaining _
    simp [jpiLoop]
  | succ fuel ih =>
    intro last limit remaining hlim
    by_cases hr : remaining = 0
    · subst hr
      rw [jpiLoop, if_pos ⟨hlim, rfl⟩]
      simp
    · rw [jpiLoop_succ_limit_ne get cs fuel last limit remaining hlim hr]
      have htg : min remaining cs ≠ 0 := by omega
      have hlen : (get (min remaining cs) last).length ≤ min remaining cs := hget _ _ htg
      cases hgl : (get (min remaining cs) last).getLast? with
      | none => simp
      | some lastThing =>
        dsimp only
        by_cases hshort : (get (min remaining cs) last).length < min remaining cs
        · rw [if_pos hshort]
          simp only [List.length_append, List.length_map, List.length_nil]
          omega
        · rw [if_neg hshort]
          have hrec := ih (some lastThing.2) limit (remaining - min remaining cs) hlim
          simp only [List.length_append, List.length_map]
          omega

/-- C7: paginating a relevance-sorted search over a fixed, strictly sorted
result set — resuming each page from the keyset cursor of the last returned
row and looping until a short page — yields the same ordered concatenation
as the single unpaginated (`chunk_size = 0`) call, namely all rows in order;
ties in rank are covered because the key includes feed URL and entry id. -/
theorem relevant_pagination_eq_unpaginated {υ : Type} (rows : List (υ × SearchKey))
    (hs : rows.Pairwise (fun p q => keyLt p.2 q.2 = true)) (cs fuel : Nat)
    (hfuel : rows.length < fuel) :
    join_paginated_iter (pageAfter keyLt rows) cs none 0 fuel =
      join_paginated_iter (pageAfter keyLt rows) 0 none 0 fuel ∧
    join_paginated_iter (pageAfter keyLt rows) cs none 0 fuel = rows.map Prod.fst := by
  have hfil : rows.filter (fun p => cursorLt keyLt none p.2) = rows :=
    List.filter_eq_self.mpr (fun x _ => rfl)
  have hunp : join_paginated_iter (pageAfter keyLt rows) 0 none 0 fuel =
      rows.map Prod.fst := by
    rw [join_paginated_iter, if_pos rfl, pageAfter, if_pos rfl, hfil]
  have hchunk : join_paginated_iter (pageAfter keyLt rows) cs none 0 fuel =
      rows.map Prod.fst := by
    by_cases hcs : cs = 0
    · subst hcs
      exact hunp
    · rw [join_paginated_iter, if_neg hcs]
      have hmain := jpiLoop_pageAfter_eq keyLt_trans keyLt_irrefl rows hs cs
        (by omega) fuel none (by rw [hfil]; exact hfuel)
      rw [hmain, hfil]
  exact ⟨hchunk.trans hunp.symm, hchunk⟩

/-- Fixture for the pagination claims: five matching entries sharing a tied
rank, distinguished (and deterministically ordered) by feed URL / entry id. -/
def c7Rows : List (Nat × SearchKey) :=
  [(10, ((0 : Int), "f1", "a")), (20, ((0 : Int), "f1", "b")),
   (30, ((0 : Int), "f2", "a")), (40, ((0 : Int), "f2", "b")),
   (50, ((0 : Int), "f3", "a"))]

/-- Witness for C7: pages of 2 over the 5-row tied-rank fixture concatenate
to the unpaginated result. -/
theorem relevant_pagination_eq_unpaginated_witness :
    join_paginated_iter (pageAfter keyLt c7Rows) 2 none 0 6 =
      join_paginated_iter (pageAfter keyLt c7Rows) 0 none 0 6 ∧
    join_paginated_iter (pageAfter keyLt c7Rows) 2 none 0 6 = c7Rows.map Prod.fst :=
  relevant_pagination_eq_unpaginated c7Rows (by decide) 2 6 (by decide)

/-- C10: with a positive limit `L`, `search_entries` yields at most `L`
results in every sort mode and for every chunk size; with `random` sort and
a positive chunk size the single page is further capped at `min L cs`. -/
theorem search_entries_limit_bound {υ : Type} (rows : List (υ × SearchKey))
    (sort : SSort) (cs L fuel : Nat) (hL : 0 < L) :
    (search_entries rows sort cs L fuel).length ≤ L ∧
    (sort = SSort.random → 0 < cs →
      (search_entries rows sort cs L fuel).length ≤ min L cs) := by
  have hget : ∀ n l, n ≠ 0 → (pageAfter keyLt rows n l).length ≤ n := by
    intro n l hn
    rw [pageAfter, if_neg hn]
    exact List.length_take_le _ _
  have hL0 : L ≠ 0 := by omega
  cases sort with
  | relevant | recent =>
    refine ⟨?_, fun h => nomatch h⟩
    show (join_paginated_iter (pageAfter keyLt rows) cs none L fuel).length ≤ L
    by_cases hcs : cs = 0
    · rw [join_paginated_iter, if_pos hcs]
      calc ((pageAfter keyLt rows L none).map Prod.fst).length
          = (pageAfter keyLt rows L none).length := List.length_map _ _
        _ ≤ L := hget L none hL0
    · rw [join_paginated_iter, if_neg hcs]
      exact jpiLoop_length_le (pageAfter keyLt rows) cs hcs hget fuel none L L hL0
  | random =>
    by_cases hcs : cs = 0
    · subst hcs
      constructor
      · show ((pageAfter keyLt rows _ none).map Prod.fst).length ≤ L
        rw [if_pos hL0, if_neg (by omega), List.length_map]
        have : min L L = L := Nat.min_self L
        rw [this]
        exact hget L none hL0
      · intro _ hpos
        omega
    · constructor
      · show ((pageAfter keyLt rows _ none).map Prod.fst).length ≤ L
        rw [if_pos hL0, if_pos hcs, List.length_map]
        calc (pageAfter keyLt rows (min L cs) none).length
            ≤ min L cs := hget _ none (by omega)
          _ ≤ L := Nat.min_le_left _ _
      · intro _ _
        show ((pageAfter keyLt rows _ none).map Prod.fst).length ≤ min L cs
        rw [if_pos hL0, if_pos hcs, List.length_map]
        exact hget _ none (by omega)

/-- Witness for C10 at limit 3, chunk size 2, random sort. -/
theorem search_entries_limit_bound_witness :
    (search_entries c7Rows SSort.random 2 3 10).length ≤ 3 ∧
    (SSort.random = SSort.random → 0 < 2 →
      (search_entries c7Rows SSort.random 2 3 10).length ≤ min 3 2) :=
  search_entries_limit_bound c7Rows SSort.random 2 3 10 (by decide)

/-! ## Data model: entries, feeds, sync state, index rows (`_search.py`) -/

/-- One item of an entry's content list (`types.Content`): a text value and
an optional MIME type (language is irrelevant to indexing). -/
structure Content where
  value : Option String
  type : Option String
deriving DecidableEq, Repr

/-- A primary-store entry row, restricted to the columns the search index
reads (`entries.id, feed, last_updated, title, summary, content`);
`last_updated` timestamps are modelled as naturals (only equality is used). -/
structure Entry where
  id : String
  feed : String
  last_updated : Nat
  title : Option String
  summary : Option String
  content : List Content
deriving DecidableEq, Repr

/-- A primary-store feed row, restricted to the columns the index reads
(`feeds.url, title, user_title`). -/
structure Feed where
  url : String
  title : Option String
  user_title : Option String
deriving DecidableEq, Repr

/-- One `entries_search_sync_state` row (SyncStateRecord): key `(id, feed)`,
the `to_update`/`to_delete` flags, and the JSON rowid list `es_rowids`. -/
structure SyncState where
  id : String
  feed : String
  to_update : Bool
  to_delete : Bool
  es_rowids : List Nat
deriving DecidableEq, Repr

/-- One `entries_search` row (IndexRow): the fts5 rowid, the three indexed
columns and the four unindexed back-pointer columns. -/
structure IndexRow where
  rowid : Nat
  title : Option String
  content : Option String
  feed : Option String
  _id : String
  _feed : String
  _content_path : Option String
  _is_feed_user_title : Bool
deriving DecidableEq, Repr

/-- The database state: the two primary-store tables, the two index tables,
and the next fresh fts5 rowid (`cursor.lastrowid` is modelled by a counter
that always hands out unused rowids, which is what the invariant needs). -/
structure DB where
  entries : List Entry
  feeds : List Feed
  esss : List SyncState
  search : List IndexRow
  nextRowid : Nat
deriving DecidableEq, Repr

def lookupEntry (db : DB) (id feed : String) : Option Entry :=
  db.entries.find? (fun e => e.id == id && e.feed == feed)

def lookupFeed (db : DB) (url : String) : Option Feed :=
  db.feeds.find? (fun f => f.url == url)

def lookupSync (esss : List SyncState) (id feed : String) : Option SyncState :=
  esss.find? (fun r => r.id == id && r.feed == feed)

/-! ## Sync-state triggers (`_create_triggers`, `_search.py` lines 250-407) -/

/-- SQL `!=` under three-valued logic: NULL if either operand is NULL. -/
def sqlNeq {α : Type} [DecidableEq α] : Option α → Option α → Option Bool
  | some x, some y => some (decide (x ≠ y))
  | _, _ => none

/-- SQL `OR` under three-valued logic. -/
def sqlOr : Option Bool → Option Bool → Option Bool
  | some true, _ => some true
  | _, some true => some true
  | some false, some false => some false
  | _, _ => none

/-- A trigger `WHEN` clause fires only when the condition is true (not NULL). -/
def sqlIsTrue : Option Bool → Bool
  | some true => true
  | _ => false

/-- The `entries.content` SQL column: NULL when the entry has no content,
otherwise the (injectively) serialized content list.  Only `=`/`!=` ever
touch this value, so the JSON text is modelled by the list itself. -/
def contentColumn (cs : List Content) : Option (List Content) :=
  if cs.isEmpty then none else some cs

/-- WHEN clause of trigger `entries_search_entries_update` (lines 310-331):
`new.title != old.title OR new.summary != old.summary OR
new.content != old.content`, under SQL three-valued logic. -/
def entriesUpdateFires (old new : Entry) : Bool :=
  sqlIsTrue (sqlOr (sqlNeq new.title old.title)
    (sqlOr (sqlNeq new.summary old.summary)
      (sqlNeq (contentColumn new.content) (contentColumn old.content))))

/-- Triggers `entries_search_entries_insert` and
`entries_search_entries_insert_esss_exists` (lines 268-309): after INSERT,
create the sync record if absent, else set `to_update=1, to_delete=0`
preserving `es_rowids`. -/
def triggerEntriesInsert (esss : List SyncState) (id feed : String) : List SyncState :=
  match lookupSync esss id feed with
  | none => esss ++ [⟨id, feed, true, false, []⟩]
  | some _ =>
    esss.map (fun r =>
      if r.id == id && r.feed == feed then { r with to_update := true, to_delete := false }
      else r)

/-- Trigger `entries_search_entries_update`: set `to_update=1` for the
entry's record when the WHEN clause fires. -/
def triggerEntriesUpdate (esss : List SyncState) (old new : Entry) : List SyncState :=
  if entriesUpdateFires old new then
    esss.map (fun r =>
      if r.id == new.id && r.feed == new.feed then { r with to_update := true } else r)
  else esss

/-- Trigger `entries_search_entries_delete` (lines 332-345): set
`to_delete=1` for the deleted entry's record (record retained). -/
def triggerEntriesDelete (esss : List SyncState) (old : Entry) : List SyncState :=
  esss.map (fun r =>
    if r.id == old.id && r.feed == old.feed then { r with to_delete := true } else r)

/-- WHEN clause of trigger `entries_search_feeds_update` (lines 350-367):
`new.title != old.title OR new.user_title != old.user_title`. -/
def feedsUpdateFires (old new : Feed) : Bool :=
  sqlIsTrue (sqlOr (sqlNeq new.title old.title) (sqlNeq new.user_title old.user_title))

/-- Trigger `entries_search_feeds_update`: mark every entry of the feed
`to_update=1` when the display title changed. -/
def triggerFeedsUpdate (esss : List SyncState) (old new : Feed) : List SyncState :=
  if feedsUpdateFires old new then
    esss.map (fun r => if r.feed == new.url then { r with to_update := true } else r)
  else esss

/-- Trigger `entries_search_feeds_update_url` (lines 374-407), fired on a
feed URL rename (`WHEN new.url != old.url`).  Its four statements in order:
delete IndexRows listed by sync records with `feed = new.url AND
to_delete = 1`; delete those sync records; re-point the `_feed`
back-pointer of IndexRows listed by the remaining `feed = old.url` records;
re-point those records' `feed` key. -/
def triggerFeedsUpdateUrl (db : DB) (oldUrl newUrl : String) : DB :=
  if oldUrl == newUrl then db
  else
    let pendingRowids :=
      (db.esss.filter (fun r => r.feed == newUrl && r.to_delete)).flatMap SyncState.es_rowids
    let search1 := db.search.filter (fun row => !(pendingRowids.contains row.rowid))
    let esss1 := db.esss.filter (fun r => !(r.feed == newUrl && r.to_delete))
    let oldRowids :=
      (esss1.filter (fun r => r.feed == oldUrl)).flatMap SyncState.es_rowids
    let search2 := search1.map (fun row =>
      if oldRowids.contains row.rowid then { row with _feed := newUrl } else row)
    let esss2 := esss1.map (fun r =>
      if r.feed == oldUrl then { r with feed := newUrl } else r)
    { db with search := search2, esss := esss2 }

/-! ## Primary-store mutations with their triggers -/

/-- `INSERT OR REPLACE INTO entries` plus the insert triggers (REPLACE is
DELETE+INSERT at the storage layer, and the delete trigger does not fire
during REPLACE because recursive triggers are off). -/
def insertEntry (db : DB) (e : Entry) : DB :=
  { db with
    entries := db.entries.filter (fun x => !(x.id == e.id && x.feed == e.feed)) ++ [e],
    esss := triggerEntriesInsert db.esss e.id e.feed }

/-- `UPDATE entries SET title, summary, content, last_updated WHERE (id, feed)`
plus the update trigger; a no-op if the entry does not exist. -/
def updateEntry (db : DB) (id feed : String) (title summary : Option String)
    (content : List Content) (last_updated : Nat) : DB :=
  match lookupEntry db id feed with
  | none => db
  | some old =>
    let new : Entry :=
      { old with title := title, summary := summary, content := content,
                 last_updated := last_updated }
    { db with
      entries := db.entries.map (fun x => if x.id == id && x.feed == feed then new else x),
      esss := triggerEntriesUpdate db.esss old new }

/-- `DELETE FROM entries WHERE (id, feed)` plus the delete trigger. -/
def deleteEntry (db : DB) (id feed : String) : DB :=
  match lookupEntry db id feed with
  | none => db
  | some old =>
    { db with
      entries := db.entries.filter (fun x => !(x.id == id && x.feed == feed)),
      esss := triggerEntriesDelete db.esss old }

/-- A primary-store mutation observable by the sync-state tracker. -/
inductive Op : Type
  | insert (e : Entry)
  | update (id feed : String) (title summary : Option String)
      (content : List Content) (last_updated : Nat)
  | delete (id feed : String)
deriving Repr

def applyOp (db : DB) : Op → DB
  | .insert e => insertEntry db e
  | .update id feed t s c lu => updateEntry db id feed t s c lu
  | .delete id feed => deleteEntry db id feed

def applyOps (db : DB) (ops : List Op) : DB :=
  ops.foldl applyOp db

/-- The enabled, empty index over a fixed feeds table. -/
def initDB (feeds : List Feed) : DB :=
  ⟨[], feeds, [], [], 1⟩

/-- Validity of an op against the (static) feeds table: inserted entries
must reference an existing feed (the `entries.feed → feeds.url` foreign
key of the primary store). -/
def opOk (feeds : List Feed) : Op → Bool
  | .insert e => feeds.any (fun f => f.url == e.feed)
  | _ => true

/-! ## Insertion/update processor (`_insert_into_search_one_chunk`) -/

/-- ASCII lowering of one codepoint (`str.lower()` on the MIME types and
error messages used here, which are ASCII). -/
def lowerCp (n : Nat) : Nat :=
  if 65 ≤ n ∧ n ≤ 90 then n + 32 else n

/-- Lowered codepoints of a string. -/
def strLowerCp (s : String) : List Nat :=
  (s.toList.map Char.toNat).map lowerCp

/-- `strip_html` (`_search.py` lines 58-62): non-strings (NULL) pass
through unchanged; strings are stripped by the Text Normalizer.  The
normalizer itself (`_html_utils.strip_html`) is not among the sources, so
the development is parametric in it: the claims below hold for every
normalizer `norm`. -/
def strip_html (norm : String → String) : Option String → Option String
  | none => none
  | some s => some (norm s)

/-- MIME-type filter of the content loop (lines 611-618):
`(content_dict.get('type') or '').lower()` must be one of
`''`, `'text/html'`, `'text/xhtml'`, `'text/plain'`. -/
def eligibleContentType (t : Option String) : Bool :=
  let l := strLowerCp (t.getD "")
  l == strLowerCp "" || l == strLowerCp "text/html" ||
    l == strLowerCp "text/xhtml" || l == strLowerCp "text/plain"

/-- The `_content_path` label `.content[i].value` (line 623). -/
def pathLabel (i : Nat) : String :=
  ".content[" ++ toString i ++ "].value"

/-- Python string truthiness (`if summary:`, `if content_json:`): false for
NULL and for the empty string. -/
def pyTruthyStr : Option String → Bool
  | none => false
  | some s => !(s == "")

/-- The ordered `final` fragment list of one entry (lines 607-631): one
`(stripped value, path)` pair per eligible content item, then the stripped
summary if truthy, and the single `(NULL, NULL)` pair if nothing else. -/
def entryFinal (norm : String → String) (e : Entry) :
    List (Option String × Option String) :=
  let fromContent := e.content.enum.filterMap (fun ic =>
    if eligibleContentType ic.2.type then
      some (strip_html norm ic.2.value, some (pathLabel ic.1))
    else none)
  let withSummary := fromContent ++
    (if pyTruthyStr e.summary then [(strip_html norm e.summary, some ".summary")] else [])
  if withSummary.isEmpty then [(none, none)] else withSummary

/-- SQL `coalesce(feeds.user_title, feeds.title)` (line 565). -/
def coalesce (a b : Option String) : Option String :=
  match a with
  | some x => some x
  | none => b

/-- Per-entry data captured by the read phase (lines 557-649): the row
columns of the phase-1 query plus the normalized fragment list. -/
structure Snapshot where
  _id : String
  _feed : String
  _last_updated : Nat
  _es_rowids : List Nat
  title : Option String
  feed_title : Option String
  _is_feed_user_title : Bool
  fragments : List (Option String × Option String)
deriving DecidableEq, Repr

def mkSnapshot (norm : String → String) (r : SyncState) (e : Entry) (f : Feed) :
    Snapshot :=
  { _id := e.id
    _feed := e.feed
    _last_updated := e.last_updated
    _es_rowids := r.es_rowids
    title := strip_html norm e.title
    feed_title := strip_html norm (coalesce f.user_title f.title)
    _is_feed_user_title := f.user_title.isSome
    fragments := entryFinal norm e }

/-- `chunk_size or 1` (lines 472, 578): a chunk size of 0 degrades to 1. -/
def effChunk (cs : Nat) : Nat :=
  if cs == 0 then 1 else cs

/-- Phase-1 read (lines 557-580): `esss` filtered on `to_update`, joined
with `entries USING (id, feed)` and `feeds ON feeds.url = esss.feed`,
limited to one chunk; each selected row is normalized into a `Snapshot`. -/
def insertSelect (norm : String → String) (db : DB) (cs : Nat) : List Snapshot :=
  ((db.esss.filter (fun r => r.to_update)).filterMap (fun r =>
    match lookupEntry db r.id r.feed, lookupFeed db r.feed with
    | some e, some f => some (mkSnapshot norm r e f)
    | _, _ => none)).take (effChunk cs)

/-- Python `set(a) == set(b)` on rowid lists (line 688). -/
def listSetEq (a b : List Nat) : Bool :=
  a.all (fun x => b.contains x) && b.all (fun x => a.contains x)

/-- The IndexRows inserted for one entry (lines 720-737): one row per
fragment pair, with rowids handed out sequentially from `next`. -/
def mkIndexRows (g : Snapshot) (next : Nat) : List IndexRow :=
  g.fragments.enum.map (fun icv =>
    { rowid := next + icv.1
      title := g.title
      content := icv.2.1
      feed := g.feed_title
      _id := g._id
      _feed := g._feed
      _content_path := icv.2.2
      _is_feed_user_title := g._is_feed_user_title })

/-- First optimistic re-check (lines 677-696): the sync record still exists,
`to_update` is still set, and its `es_rowids` still equals (as a set) the
phase-1 snapshot. -/
def writeChecksSync (db : DB) (g : Snapshot) : Bool :=
  match lookupSync db.esss g._id g._feed with
  | none => false
  | some r => r.to_update && listSetEq r.es_rowids g._es_rowids

/-- Second optimistic re-check (lines 698-710): the entry still exists and
its `last_updated` is unchanged since phase 1. -/
def writeChecksEntry (db : DB) (g : Snapshot) : Bool :=
  match lookupEntry db g._id g._feed with
  | none => false
  | some e => e.last_updated == g._last_updated

/-- Success branch of the per-entry write transaction (lines 712-746):
delete all IndexRows listed in the snapshot `es_rowids`, insert one new
IndexRow per fragment, set `to_update=0` and `es_rowids` to the new rowids. -/
def rewriteEntry (db : DB) (g : Snapshot) : DB :=
  let newRows := mkIndexRows g db.nextRowid
  { db with
    search := db.search.filter (fun row => !(g._es_rowids.contains row.rowid)) ++ newRows
    nextRowid := db.nextRowid + g.fragments.length
    esss := db.esss.map (fun s =>
      if s.id == g._id && s.feed == g._feed then
        { s with to_update := false, es_rowids := newRows.map IndexRow.rowid }
      else s) }

/-- One per-entry `BEGIN IMMEDIATE` write transaction (lines 656-746):
re-check, then rewrite, or skip with no error and no change. -/
def processGroup (db : DB) (g : Snapshot) : DB :=
  if writeChecksSync db g then
    if writeChecksEntry db g then rewriteEntry db g else db
  else db

/-- `_insert_into_search_one_chunk`: returns the new state and whether the
loop should continue (`False` only when the chunk selected nothing). -/
def insert_into_search_one_chunk (norm : String → String) (db : DB) (cs : Nat) :
    DB × Bool :=
  let groups := insertSelect norm db cs
  if groups.isEmpty then (db, false)
  else (groups.foldl processGroup db, true)

/-- `_insert_into_search` (lines 525-529): loop chunks until one reports
done; embedded with fuel. -/
def insert_into_search (norm : String → String) (cs : Nat) : Nat → DB → DB
  | 0, db => db
  | fuel + 1, db =>
    let res := insert_into_search_one_chunk norm db cs
    if res.2 then insert_into_search norm cs fuel res.1 else res.1

/-! ## Deletion processor (`_delete_from_search_one_chunk`, lines 469-523) -/

/-- The chunk's `SELECT id, feed, es_rowids FROM entries_search_sync_state
WHERE to_delete LIMIT chunk_size`. -/
def deleteSelected (db : DB) (cs : Nat) : List SyncState :=
  (db.esss.filter (fun r => r.to_delete)).take (effChunk cs)

/-- One deletion chunk: delete every IndexRow whose rowid appears in a
selected record's `es_rowids`, delete the selected records, and report
whether the loop should continue (a short or empty chunk stops it). -/
def delete_from_search_one_chunk (db : DB) (cs : Nat) : DB × Bool :=
  let rows := deleteSelected db cs
  if rows.isEmpty then (db, false)
  else
    let removed := rows.flatMap SyncState.es_rowids
    let db' := { db with
      search := db.search.filter (fun row => !(removed.contains row.rowid))
      esss := db.esss.filter (fun r =>
        !(rows.any (fun s => s.id == r.id && s.feed == r.feed))) }
    (db', !(rows.length < effChunk cs))

/-- `_delete_from_search` (lines 464-467), embedded with fuel. -/
def delete_from_search (cs : Nat) : Nat → DB → DB
  | 0, db => db
  | fuel + 1, db =>
    let res := delete_from_search_one_chunk db cs
    if res.2 then delete_from_search cs fuel res.1 else res.1

/-- `Search.update` (lines 457-462): drain deletions, then drain updates
(the capability check does not affect the state).  The fuel bounds suffice
for the drains to run to quiescence, as proved below. -/
def searchUpdate (norm : String → String) (cs : Nat) (db : DB) : DB :=
  let db1 := delete_from_search cs (db.esss.length + 1) db
  insert_into_search norm cs (db1.esss.length + 1) db1

/-- The rowids of the IndexRows whose back-pointers match a sync record. -/
def matchingRowids (db : DB) (r : SyncState) : List Nat :=
  (db.search.filter (fun row => row._id == r.id && row._feed == r.feed)).map
    IndexRow.rowid

/-! ## Tri-state filter (`_types.py`, lines 394-416) -/

/-- Accepted input of the read/important tri-state filter
(`TristateFilterInput`): `None`, a bool, or a string literal. -/
inductive TristateInput : Type
  | null
  | bool (b : Bool)
  | str (s : String)
deriving DecidableEq, Repr

/-- The `TristateFilter` literal values (`_types.py` lines 394-402), in
declaration order. -/
def tristateFilterArgs : List String :=
  ["istrue", "isfalse", "notset", "nottrue", "notfalse", "isset", "any"]

/-- `tristate_filter_argument` (`_types.py` lines 405-416): `None → 'any'`,
`True → 'istrue'`, `False → 'nottrue'`, a literal in `TristateFilter` is
returned unchanged, anything else raises `ValueError`. -/
def tristate_filter_argument (value : TristateInput) (name : String) :
    Except String String :=
  match value with
  | .null => .ok "any"
  | .bool true => .ok "istrue"
  | .bool false => .ok "nottrue"
  | .str s =>
    if s ∈ tristateFilterArgs then .ok s
    else .error (name ++ " must be none, bool, or one of TristateFilter")

/-- The six resolved states enumerated by the claim (true / false / unset /
not-true / not-false / any, in the code's spelling). -/
def claimedSixStates : List String :=
  ["istrue", "isfalse", "notset", "nottrue", "notfalse", "any"]

deriving instance DecidableEq for Except

def exceptIsOk {ε α : Type} : Except ε α → Bool
  | .ok _ => true
  | .error _ => false

/-- C8 counterexample: the accepted argument `'isset'` resolves to the
seventh state `'isset'`, which is outside the claim's six states. -/
theorem tristate_seventh_state_cx :
    tristate_filter_argument (.str "isset") "important" = .ok "isset" ∧
    "isset" ∉ claimedSixStates ∧ "isset" ∈ tristateFilterArgs := by
  decide

/-- C8 amended: every accepted argument resolves to one of the SEVEN
`TristateFilter` literals (the six claimed ones plus `isset`), and an
argument is rejected exactly when it is a string outside that list. -/
theorem tristate_filter_argument_resolves (v : TristateInput) (name : String) :
    (∀ s, tristate_filter_argument v name = .ok s → s ∈ tristateFilterArgs) ∧
    (exceptIsOk (tristate_filter_argument v name) = false ↔
      ∃ s, v = .str s ∧ s ∉ tristateFilterArgs) := by
  cases v with
  | null =>
    refine ⟨fun s hs => ?_, by simp [tristate_filter_argument, exceptIsOk]⟩
    obtain rfl : "any" = s := by simpa [tristate_filter_argument] using hs
    decide
  | bool b =>
    cases b with
    | false =>
      refine ⟨fun s hs => ?_, by simp [tristate_filter_argument, exceptIsOk]⟩
      obtain rfl : "nottrue" = s := by simpa [tristate_filter_argument] using hs
      decide
    | true =>
      refine ⟨fun s hs => ?_, by simp [tristate_filter_argument, exceptIsOk]⟩
      obtain rfl : "istrue" = s := by simpa [tristate_filter_argument] using hs
      decide
  | str s =>
    by_cases hmem : s ∈ tristateFilterArgs
    · refine ⟨fun u hu => ?_, ?_⟩
      · obtain rfl : s = u := by simpa [tristate_filter_argument, hmem] using hu
        exact hmem
      · simp [tristate_filter_argument, hmem, exceptIsOk]
    · refine ⟨fun u hu => ?_, ?_⟩
      · simp [tristate_filter_argument, hmem] at hu
      · simp [tristate_filter_argument, hmem, exceptIsOk]

/-- Witness for the amended C8 at `'isfalse'` (accepted) and `'bogus'`
(rejected). -/
theorem tristate_filter_argument_resolves_witness :
    "isfalse" ∈ tristateFilterArgs ∧
    exceptIsOk (tristate_filter_argument (.str "bogus") "important") = false :=
  ⟨(tristate_filter_argument_resolves (.str "isfalse") "important").1 "isfalse"
      (by decide),
   (tristate_filter_argument_resolves (.str "bogus") "important").2.mpr
      ⟨"bogus", rfl, by decide⟩⟩

/-! ## Not-enabled / query-syntax errors (`_search.py` lines 65-89, 457-462) -/

/-- Exceptions crossing the sqlite boundary. -/
inductive PyExc : Type
  | operationalError (msg : String)
deriving DecidableEq, Repr

/-- Errors surfaced by the search provider (`SearchNotEnabledError`,
`InvalidSearchQueryError`, or a re-raised OperationalError). -/
inductive SearchExc : Type
  | searchNotEnabled
  | invalidSearchQuery (msg : String)
  | operational (msg : String)
deriving DecidableEq, Repr

/-- `_QUERY_ERROR_MESSAGE_FRAGMENTS` (lines 65-71). -/
def queryErrorMessageFragments : List String :=
  ["fts5: syntax error near", "unknown special query", "no such column",
   "no such cursor", "unterminated string"]

/-- Whether `needle` starts `hay`. -/
def startsWithSeg : List Nat → List Nat → Bool
  | _, [] => true
  | [], _ :: _ => false
  | a :: as, b :: bs => a == b && startsWithSeg as bs

/-- Whether `needle` occurs inside `hay` (Python `needle in hay`). -/
def containsSeg (hay needle : List Nat) : Bool :=
  match hay with
  | [] => needle.isEmpty
  | _ :: t => startsWithSeg hay needle || containsSeg t needle

/-- `wrap_search_exceptions` (lines 74-89): a 'no such table'
OperationalError becomes `SearchNotEnabledError` (when `enabled`); a
message containing a known query-error fragment becomes
`InvalidSearchQueryError` (when `query`); anything else is re-raised. -/
def wrap_search_exceptions {α : Type} (enabled query : Bool) :
    Except PyExc α → Except SearchExc α
  | .ok a => .ok a
  | .error (.operationalError msg) =>
    let msgLower := strLowerCp msg
    if enabled && containsSeg msgLower (strLowerCp "no such table") then
      .error .searchNotEnabled
    else if query && queryErrorMessageFragments.any
        (fun frag => containsSeg msgLower (strLowerCp frag)) then
      .error (.invalidSearchQuery msg)
    else .error (.operational msg)

/-- Modelled from the spec: executing a statement that references the index
tables raises an sqlite `no such table` OperationalError exactly when the
index schema is absent, and succeeds otherwise (`_sqlite_utils.py` and the
sqlite engine are not among the sources). -/
def runIndexQuery {α : Type} (schemaPresent : Bool) (rows : α) : Except PyExc α :=
  if schemaPresent then .ok rows
  else .error (.operationalError "no such table: entries_search")

/-- A `search_entries_page` call: body wrapped by
`wrap_search_exceptions(query=True)` (line 846). -/
def searchCall {α : Type} (schemaPresent : Bool) (rows : α) : Except SearchExc α :=
  wrap_search_exceptions true true (runIndexQuery schemaPresent rows)

/-- An `update()` call: body wrapped by `wrap_search_exceptions()`
(lines 457-462). -/
def updateCall (schemaPresent : Bool) : Except SearchExc Unit :=
  wrap_search_exceptions true false (runIndexQuery schemaPresent ())

/-- C9: `search` and `update` surface the distinct not-enabled error exactly
when the index schema is absent; in particular a search against an absent
schema errors rather than returning the empty result. -/
theorem not_enabled_error_iff {α : Type} (schemaPresent : Bool) (rows : α) :
    (searchCall schemaPresent rows = .error .searchNotEnabled ↔ schemaPresent = false) ∧
    (updateCall schemaPresent = .error .searchNotEnabled ↔ schemaPresent = false) ∧
    (schemaPresent = false → ∀ res : α, searchCall schemaPresent rows ≠ .ok res) := by
  cases schemaPresent with
  | true =>
    refine ⟨?_, ?_, ?_⟩
    · simp [searchCall, runIndexQuery, wrap_search_exceptions]
    · simp [updateCall, runIndexQuery, wrap_search_exceptions]
    · intro h
      exact absurd h (by simp)
  | false =>
    have hs : searchCall false rows = .error .searchNotEnabled := by rfl
    have hu : updateCall false = .error .searchNotEnabled := by rfl
    refine ⟨by simp [hs], by simp [hu], ?_⟩
    intro _ res
    rw [hs]
    exact fun h => nomatch h

/-- Witness for C9 with an absent schema and a concrete result list. -/
theorem not_enabled_error_iff_witness :
    (searchCall false ([1, 2] : List Nat) = .error .searchNotEnabled ↔ false = false) ∧
    (updateCall false = .error .searchNotEnabled ↔ false = false) ∧
    (false = false → ∀ res : List Nat, searchCall false [1, 2] ≠ .ok res) :=
  not_enabled_error_iff false [1, 2]

/-! ## C5: which primary-store updates set `to_update` -/

lemma sqlIsTrue_iff : ∀ x : Option Bool, (sqlIsTrue x = true ↔ x = some true) := by
  decide

lemma sqlOr_eq_some_true : ∀ x y : Option Bool,
    (sqlOr x y = some true ↔ x = some true ∨ y = some true) := by
  decide

lemma sqlNeq_some_true {α : Type} [DecidableEq α] (a b : Option α) :
    sqlNeq a b = some true ↔ ∃ x y, a = some x ∧ b = some y ∧ x ≠ y := by
  cases a with
  | none => simp [sqlNeq]
  | some x =>
    cases b with
    | none => simp [sqlNeq]
    | some y => simp [sqlNeq]

/-- Membership in a keyed in-place list update. -/
lemma mem_map_update {β : Type} (l : List β) (f : β → β) (cond : β → Bool)
    (r : β) (hr : r ∈ l) :
    (cond r = true → f r ∈ l.map (fun x => if cond x then f x else x)) ∧
    (cond r = false → r ∈ l.map (fun x => if cond x then f x else x)) := by
  constructor
  · intro hc
    have he : (fun x => if cond x then f x else x) r = f r := by
      simp only [hc, if_true]
    exact he ▸ List.mem_map_of_mem _ hr
  · intro hc
    have he : (fun x => if cond x then f x else x) r = r := by
      simp only [hc, Bool.false_eq_true, if_false]
    exact he ▸ List.mem_map_of_mem _ hr

/-- Fixture for the C5 counterexample: an entry whose title is NULL, with a
non-null unchanged summary and content, and a clean sync record. -/
def c5db : DB :=
  ⟨[⟨"e", "f", 1, none, some "s", [⟨some "v", some "text/plain"⟩]⟩],
   [⟨"f", some "F", none⟩],
   [⟨"e", "f", false, false, []⟩], [], 1⟩

/-- C5 counterexample: updating the entry's title from NULL to a value (with
summary and content unchanged) leaves `to_update = 0`: the trigger's WHEN
clause `new.title != old.title OR ...` evaluates to NULL under SQL
three-valued logic, so the claimed `to_update = 1` does not hold. -/
theorem entries_update_null_transition_cx :
    lookupEntry (updateEntry c5db "e" "f" (some "x") (some "s")
        [⟨some "v", some "text/plain"⟩] 2) "e" "f" =
      some ⟨"e", "f", 2, some "x", some "s", [⟨some "v", some "text/plain"⟩]⟩ ∧
    lookupSync (updateEntry c5db "e" "f" (some "x") (some "s")
        [⟨some "v", some "text/plain"⟩] 2).esss "e" "f" =
      some ⟨"e", "f", false, false, []⟩ := by
  decide

/-- C5 amended: an entry update sets `to_update = 1` on the entry's sync
record exactly when some touched column (title, summary, content) is
non-null on BOTH sides and unequal; a change from or to NULL alone does not
fire the trigger (SQL three-valued `!=`).  Likewise a feed display-title
change marks the feed's entries exactly when title or user-override title
is non-null on both sides and unequal.  Records the trigger does not
rewrite are carried over unchanged. -/
theorem sync_flag_on_update (esss : List SyncState) (old new : Entry)
    (oldF newF : Feed) :
    (entriesUpdateFires old new = true ↔
      ((∃ x y, new.title = some x ∧ old.title = some y ∧ x ≠ y) ∨
       (∃ x y, new.summary = some x ∧ old.summary = some y ∧ x ≠ y) ∨
       (∃ x y, contentColumn new.content = some x ∧ contentColumn old.content = some y ∧
          x ≠ y))) ∧
    (feedsUpdateFires oldF newF = true ↔
      ((∃ x y, newF.title = some x ∧ oldF.title = some y ∧ x ≠ y) ∨
       (∃ x y, newF.user_title = some x ∧ oldF.user_title = some y ∧ x ≠ y))) ∧
    (∀ r ∈ esss,
      (entriesUpdateFires old new = true → r.id = new.id → r.feed = new.feed →
        { r with to_update := true } ∈ triggerEntriesUpdate esss old new) ∧
      (entriesUpdateFires old new = false → r ∈ triggerEntriesUpdate esss old new) ∧
      (¬(r.id = new.id ∧ r.feed = new.feed) → r ∈ triggerEntriesUpdate esss old new)) ∧
    (∀ r ∈ esss,
      (feedsUpdateFires oldF newF = true → r.feed = newF.url →
        { r with to_update := true } ∈ triggerFeedsUpdate esss oldF newF) ∧
      (feedsUpdateFires oldF newF = false → r ∈ triggerFeedsUpdate esss oldF newF) ∧
      (r.feed ≠ newF.url → r ∈ triggerFeedsUpdate esss oldF newF)) := by
  refine ⟨?_, ?_, ?_, ?_⟩
  · rw [show entriesUpdateFires old new =
        sqlIsTrue (sqlOr (sqlNeq new.title old.title)
          (sqlOr (sqlNeq new.summary old.summary)
            (sqlNeq (contentColumn new.content) (contentColumn old.content)))) from rfl,
      sqlIsTrue_iff, sqlOr_eq_some_true, sqlOr_eq_some_true,
      sqlNeq_some_true, sqlNeq_some_true, sqlNeq_some_true]
  · rw [show feedsUpdateFires oldF newF =
        sqlIsTrue (sqlOr (sqlNeq newF.title oldF.title)
          (sqlNeq newF.user_title oldF.user_title)) from rfl,
      sqlIsTrue_iff, sqlOr_eq_some_true, sqlNeq_some_true, sqlNeq_some_true]
  · intro r hr
    refine ⟨?_, ?_, ?_⟩
    · intro hf hid hfeed
      rw [triggerEntriesUpdate, if_pos hf]
      exact (mem_map_update esss _ (fun x => x.id == new.id && x.feed == new.feed) r hr).1
        (by simp [hid, hfeed])
    · intro hf
      rw [triggerEntriesUpdate, hf]
      simpa using hr
    · intro hkey
      by_cases hf : entriesUpdateFires old new
      · rw [triggerEntriesUpdate, if_pos hf]
        refine (mem_map_update esss _ (fun x => x.id == new.id && x.feed == new.feed) r hr).2 ?_
        by_cases h1 : r.id = new.id
        · by_cases h2 : r.feed = new.feed
          · exact absurd ⟨h1, h2⟩ hkey
          · simp [h2]
        · simp [h1]
      · rw [triggerEntriesUpdate, if_neg hf]
        exact hr
  · intro r hr
    refine ⟨?_, ?_, ?_⟩
    · intro hf hfeed
      rw [triggerFeedsUpdate, if_pos hf]
      exact (mem_map_update esss _ (fun x => x.feed == newF.url) r hr).1 (by simp [hfeed])
    · intro hf
      rw [triggerFeedsUpdate, hf]
      simpa using hr
    · intro hkey
      by_cases hf : feedsUpdateFires oldF newF
      · rw [triggerFeedsUpdate, if_pos hf]
        exact (mem_map_update esss _ (fun x => x.feed == newF.url) r hr).2 (by simp [hkey])
      · rw [triggerFeedsUpdate, if_neg hf]
        exact hr

/-- Witness for the amended C5: a non-null title change fires the trigger
and marks the record; the feed-title branch likewise. -/
theorem sync_flag_on_update_witness :
    (⟨"e", "f", true, false, []⟩ : SyncState) ∈
      triggerEntriesUpdate [⟨"e", "f", false, false, []⟩]
        ⟨"e", "f", 1, some "a", none, []⟩ ⟨"e", "f", 2, some "b", none, []⟩ ∧
    (⟨"e", "f", true, false, []⟩ : SyncState) ∈
      triggerFeedsUpdate [⟨"e", "f", false, false, []⟩]
        ⟨"f", some "A", none⟩ ⟨"f", some "B", none⟩ :=
  ⟨((sync_flag_on_update [⟨"e", "f", false, false, []⟩]
      ⟨"e", "f", 1, some "a", none, []⟩ ⟨"e", "f", 2, some "b", none, []⟩
      ⟨"f", some "A", none⟩ ⟨"f", some "B", none⟩).2.2.1
      ⟨"e", "f", false, false, []⟩ (by decide)).1 (by decide) rfl rfl,
   ((sync_flag_on_update [⟨"e", "f", false, false, []⟩]
      ⟨"e", "f", 1, some "a", none, []⟩ ⟨"e", "f", 2, some "b", none, []⟩
      ⟨"f", some "A", none⟩ ⟨"f", some "B", none⟩).2.2.2
      ⟨"e", "f", false, false, []⟩ (by decide)).1 (by decide) rfl⟩

/-! ## C4: feed URL rename -/

/-- Consistency of the index tables: unique record keys, unique rowids, each
record's rowids distinct and owned by no other record, each owned rowid
backed by an IndexRow with matching back-pointers, every IndexRow owned,
and all rowids below the fresh-rowid counter. -/
structure SyncInv (db : DB) : Prop where
  esssKeysNodup : (db.esss.map (fun r => (r.id, r.feed))).Nodup
  rowidsNodup : (db.search.map IndexRow.rowid).Nodup
  ownNodup : ∀ r ∈ db.esss, r.es_rowids.Nodup
  ownDisj : ∀ r₁ ∈ db.esss, ∀ r₂ ∈ db.esss, ∀ rid,
    rid ∈ r₁.es_rowids → rid ∈ r₂.es_rowids → r₁ = r₂
  ownExists : ∀ r ∈ db.esss, ∀ rid ∈ r.es_rowids,
    ∃ row ∈ db.search, row.rowid = rid ∧ row._id = r.id ∧ row._feed = r.feed
  rowsOwned : ∀ row ∈ db.search, ∃ r ∈ db.esss, row.rowid ∈ r.es_rowids
  rowidLt : ∀ row ∈ db.search, row.rowid < db.nextRowid

/-- Fixture for the C4 counterexample: one sync record pending deletion
under the OLD url, with its IndexRow. -/
def c4db : DB :=
  ⟨[], [], [⟨"e", "old", false, true, [1]⟩],
   [⟨1, none, none, none, "e", "old", none, false⟩], 2⟩

/-- C4 counterexample: the claim says the rename hook first deletes the
IndexRows and SyncStateRecords already marked `to_delete=1` for the OLD
url; on this state the trigger instead re-points them to the new URL — the
record and its IndexRow survive.  (The deletion in the trigger targets
`feed = new.url`.) -/
theorem feeds_update_url_old_pending_cx :
    (triggerFeedsUpdateUrl c4db "old" "new").esss =
      [⟨"e", "new", false, true, [1]⟩] ∧
    (triggerFeedsUpdateUrl c4db "old" "new").search =
      [⟨1, none, none, none, "e", "new", none, false⟩] := by
  decide

/-- Re-pointing map applied to IndexRows by the rename trigger. -/
def repointRowF (ids : List Nat) (u : String) (row : IndexRow) : IndexRow :=
  if ids.contains row.rowid then { row with _feed := u } else row

/-- Re-pointing map applied to sync records by the rename trigger. -/
def repointRecF (u0 u : String) (r : SyncState) : SyncState :=
  if r.feed == u0 then { r with feed := u } else r

lemma repointRecF_es_rowids (u0 u : String) (r : SyncState) :
    (repointRecF u0 u r).es_rowids = r.es_rowids := by
  unfold repointRecF
  by_cases c : (r.feed == u0) = true
  · rw [if_pos c]
  · rw [if_neg c]

lemma repointRecF_id (u0 u : String) (r : SyncState) :
    (repointRecF u0 u r).id = r.id := by
  unfold repointRecF
  by_cases c : (r.feed == u0) = true
  · rw [if_pos c]
  · rw [if_neg c]

lemma repointRecF_key (u0 u : String) (r : SyncState) :
    ((repointRecF u0 u r).id, (repointRecF u0 u r).feed) =
      (r.id, if r.feed == u0 then u else r.feed) := by
  unfold repointRecF
  by_cases c : (r.feed == u0) = true
  · rw [if_pos c, if_pos c]
  · rw [if_neg c, if_neg c]

lemma repointRowF_rowid (ids : List Nat) (u : String) (row : IndexRow) :
    (repointRowF ids u row).rowid = row.rowid := by
  unfold repointRowF
  by_cases c : (ids.contains row.rowid) = true
  · rw [if_pos c]
  · rw [if_neg c]

lemma repointRowF_id (ids : List Nat) (u : String) (row : IndexRow) :
    (repointRowF ids u row)._id = row._id := by
  unfold repointRowF
  by_cases c : (ids.contains row.rowid) = true
  · rw [if_pos c]
  · rw [if_neg c]

/-- C4 amended: on a feed URL rename the hook first deletes the IndexRows
and SyncStateRecords of records already marked `to_delete=1` under the NEW
url (stale records of a previously deleted feed that had that URL - the
identity-collision case), then re-points the remaining records (including
old-URL ones still pending deletion) and their IndexRows to the new URL;
under the index consistency invariant, and given that every record under
the new URL is pending deletion (the primary store's feeds key guarantees
this when a rename to that URL is possible), no IndexRow or record is
duplicated and none is lost or orphaned. -/
theorem feeds_update_url_rename (db : DB) (hinv : SyncInv db) (oldUrl newUrl : String)
    (hne : oldUrl ≠ newUrl)
    (hpend : ∀ r ∈ db.esss, r.feed = newUrl → r.to_delete = true) :
    (triggerFeedsUpdateUrl db oldUrl newUrl).esss =
      (db.esss.filter (fun r => !(r.feed == newUrl && r.to_delete))).map
        (fun r => if r.feed == oldUrl then { r with feed := newUrl } else r) ∧
    ((triggerFeedsUpdateUrl db oldUrl newUrl).esss.map (fun r => (r.id, r.feed))).Nodup ∧
    ((triggerFeedsUpdateUrl db oldUrl newUrl).search.map IndexRow.rowid).Nodup ∧
    (∀ r ∈ (triggerFeedsUpdateUrl db oldUrl newUrl).esss, ∀ rid ∈ r.es_rowids,
      ∃ row ∈ (triggerFeedsUpdateUrl db oldUrl newUrl).search,
        row.rowid = rid ∧ row._id = r.id ∧ row._feed = r.feed) ∧
    (∀ row ∈ (triggerFeedsUpdateUrl db oldUrl newUrl).search,
      ∃ r ∈ (triggerFeedsUpdateUrl db oldUrl newUrl).esss, row.rowid ∈ r.es_rowids) := by
  have hbe : (oldUrl == newUrl) = false := by simp [hne]
  set pend := db.esss.filter (fun r => r.feed == newUrl && r.to_delete) with hpendDef
  set pendingRowids := pend.flatMap SyncState.es_rowids with hpR
  set search1 := db.search.filter (fun row => !(pendingRowids.contains row.rowid)) with hs1
  set esss1 := db.esss.filter (fun r => !(r.feed == newUrl && r.to_delete)) with he1
  set oldRowids := (esss1.filter (fun r => r.feed == oldUrl)).flatMap SyncState.es_rowids
    with hoR
  have hun : triggerFeedsUpdateUrl db oldUrl newUrl =
      { db with search := search1.map (repointRowF oldRowids newUrl),
                esss := esss1.map (repointRecF oldUrl newUrl) } := by
    rw [triggerFeedsUpdateUrl, if_neg (by simp [hbe])]
    rfl
  have hmemdbE : ∀ r ∈ esss1, r ∈ db.esss := fun r hr => List.mem_of_mem_filter hr
  have hinjKey : ∀ r₁ ∈ db.esss, ∀ r₂ ∈ db.esss,
      (r₁.id, r₁.feed) = (r₂.id, r₂.feed) → r₁ = r₂ :=
    List.inj_on_of_nodup_map hinv.esssKeysNodup
  have hnotPend1 : ∀ r ∈ esss1, (r.feed == newUrl && r.to_delete) = false := by
    intro r hr
    have h2 := (List.mem_filter.mp hr).2
    cases hb : (r.feed == newUrl && r.to_delete) with
    | false => rfl
    | true =>
      rw [hb] at h2
      exact absurd h2 (by simp)
  have hownNotPending : ∀ r ∈ esss1, ∀ rid ∈ r.es_rowids,
      pendingRowids.contains rid = false := by
    intro r hr rid hrid
    by_contra hc
    have hct : pendingRowids.contains rid = true := by
      cases hcb : pendingRowids.contains rid
      · exact absurd hcb hc
      · rfl
    have hmem : rid ∈ pendingRowids := List.mem_of_elem_eq_true hct
    obtain ⟨d, hd, hdin⟩ := List.mem_flatMap.mp hmem
    have hddb : d ∈ db.esss := List.mem_of_mem_filter hd
    have hdcond := (List.mem_filter.mp hd).2
    have hdr : d = r :=
      hinv.ownDisj d hddb r (hmemdbE r hr) rid hdin hrid
    rw [hdr] at hdcond
    rw [hnotPend1 r hr] at hdcond
    exact absurd hdcond (by simp)
  refine ⟨by rw [hun]; rfl, ?_, ?_, ?_, ?_⟩
  · -- record keys stay unique
    rw [hun]
    show ((esss1.map (repointRecF oldUrl newUrl)).map (fun r => (r.id, r.feed))).Nodup
    rw [List.map_map]
    refine List.Nodup.map_on ?_ ((List.Nodup.of_map _ hinv.esssKeysNodup).filter _)
    intro r₁ h₁ r₂ h₂ heq
    have heq' : ((repointRecF oldUrl newUrl r₁).id, (repointRecF oldUrl newUrl r₁).feed) =
        ((repointRecF oldUrl newUrl r₂).id, (repointRecF oldUrl newUrl r₂).feed) := heq
    rw [repointRecF_key, repointRecF_key] at heq'
    by_cases c₁ : (r₁.feed == oldUrl) = true <;> by_cases c₂ : (r₂.feed == oldUrl) = true
    · rw [if_pos c₁, if_pos c₂, Prod.mk.injEq] at heq'
      refine hinjKey r₁ (hmemdbE r₁ h₁) r₂ (hmemdbE r₂ h₂) ?_
      rw [show r₁.feed = oldUrl from by simpa using c₁,
        show r₂.feed = oldUrl from by simpa using c₂, heq'.1]
    · rw [if_pos c₁, if_neg c₂, Prod.mk.injEq] at heq'
      have hfeed2 : r₂.feed = newUrl := heq'.2.symm
      have hdel := hpend r₂ (hmemdbE r₂ h₂) hfeed2
      have hcond : (r₂.feed == newUrl && r₂.to_delete) = true := by
        simp [hfeed2, hdel]
      rw [hnotPend1 r₂ h₂] at hcond
      exact absurd hcond (by simp)
    · rw [if_neg c₁, if_pos c₂, Prod.mk.injEq] at heq'
      have hfeed1 : r₁.feed = newUrl := heq'.2
      have hdel := hpend r₁ (hmemdbE r₁ h₁) hfeed1
      have hcond : (r₁.feed == newUrl && r₁.to_delete) = true := by
        simp [hfeed1, hdel]
      rw [hnotPend1 r₁ h₁] at hcond
      exact absurd hcond (by simp)
    · rw [if_neg c₁, if_neg c₂] at heq'
      exact hinjKey r₁ (hmemdbE r₁ h₁) r₂ (hmemdbE r₂ h₂) heq'
  · -- rowids stay unique
    rw [hun]
    show ((search1.map (repointRowF oldRowids newUrl)).map IndexRow.rowid).Nodup
    rw [List.map_map]
    have hmapeq : search1.map (IndexRow.rowid ∘ repointRowF oldRowids newUrl) =
        search1.map IndexRow.rowid :=
      List.map_congr_left (fun row _ => repointRowF_rowid oldRowids newUrl row)
    rw [hmapeq]
    exact List.Nodup.sublist ((List.filter_sublist _).map _) hinv.rowidsNodup
  · -- no IndexRow is lost: every owned rowid still has a matching row
    rw [hun]
    intro r' hr' rid hrid
    obtain ⟨r, hrm, rfl⟩ := List.mem_map.mp hr'
    have hrdb : r ∈ db.esss := hmemdbE r hrm
    rw [repointRecF_es_rowids] at hrid
    obtain ⟨row, hrowm, hroweq, hid, hfeed⟩ := hinv.ownExists r hrdb rid hrid
    have hridrow : row.rowid ∈ r.es_rowids := by
      rw [hroweq]
      exact hrid
    have hrow1 : row ∈ search1 := by
      refine List.mem_filter.mpr ⟨hrowm, ?_⟩
      have hnp := hownNotPending r hrm rid hrid
      rw [hroweq, hnp]
      rfl
    refine ⟨repointRowF oldRowids newUrl row, List.mem_map_of_mem _ hrow1, ?_⟩
    rw [repointRowF_rowid, repointRowF_id, repointRecF_id]
    refine ⟨hroweq, hid, ?_⟩
    unfold repointRowF repointRecF
    by_cases c : (r.feed == oldUrl) = true
    · have hmemold : row.rowid ∈ oldRowids :=
        List.mem_flatMap.mpr ⟨r, List.mem_filter.mpr ⟨hrm, c⟩, hridrow⟩
      rw [if_pos (List.elem_eq_true_of_mem hmemold), if_pos c]
    · have hnotold : (oldRowids.contains row.rowid) = false := by
        by_contra hc
        have hct : oldRowids.contains row.rowid = true := by
          cases hcb : oldRowids.contains row.rowid
          · exact absurd hcb hc
          · rfl
        have hmem : row.rowid ∈ oldRowids := List.mem_of_elem_eq_true hct
        obtain ⟨o, ho, hoin⟩ := List.mem_flatMap.mp hmem
        have hodb : o ∈ db.esss := hmemdbE o (List.mem_of_mem_filter ho)
        have hor : o = r := hinv.ownDisj o hodb r hrdb row.rowid hoin hridrow
        have hofeed := (List.mem_filter.mp ho).2
        rw [hor] at hofeed
        exact absurd hofeed (by simp [c])
      rw [if_neg (by rw [hnotold]; exact Bool.false_ne_true), if_neg c]
      exact hfeed
  · -- no IndexRow is orphaned: every surviving row still has an owner
    rw [hun]
    intro row' hrow'
    obtain ⟨row, hrow1, rfl⟩ := List.mem_map.mp hrow'
    have hrowdb : row ∈ db.search := List.mem_of_mem_filter hrow1
    obtain ⟨r, hrdb, hown⟩ := hinv.rowsOwned row hrowdb
    have hrcond : (r.feed == newUrl && r.to_delete) = false := by
      by_contra hc
      have hcond : (r.feed == newUrl && r.to_delete) = true := by
        revert hc
        cases r.feed == newUrl && r.to_delete <;> simp
      have hpendmem : r ∈ pend := List.mem_filter.mpr ⟨hrdb, hcond⟩
      have hridpend : row.rowid ∈ pendingRowids := List.mem_flatMap.mpr ⟨r, hpendmem, hown⟩
      have hflt := (List.mem_filter.mp hrow1).2
      have hcontains : pendingRowids.contains row.rowid = true :=
        List.elem_eq_true_of_mem hridpend
      rw [hcontains] at hflt
      exact absurd hflt (by simp)
    have hr1 : r ∈ esss1 := List.mem_filter.mpr ⟨hrdb, by simp [hrcond]⟩
    refine ⟨repointRecF oldUrl newUrl r, List.mem_map_of_mem _ hr1, ?_⟩
    rw [repointRecF_es_rowids, repointRowF_rowid]
    exact hown

/-- Witness for the amended C4 on a two-record state: a stale pending-delete
record under the new URL (with IndexRow 1) and a live record under the old
URL (with IndexRow 2). -/
def c4dbW : DB :=
  ⟨[], [], [⟨"e", "new", false, true, [1]⟩, ⟨"e", "old", false, false, [2]⟩],
   [⟨1, none, none, none, "e", "new", none, false⟩,
    ⟨2, none, none, none, "e", "old", none, false⟩], 3⟩

theorem feeds_update_url_rename_witness :
    (triggerFeedsUpdateUrl c4dbW "old" "new").esss =
      (c4dbW.esss.filter (fun r => !(r.feed == "new" && r.to_delete))).map
        (fun r => if r.feed == "old" then { r with feed := "new" } else r) ∧
    ((triggerFeedsUpdateUrl c4dbW "old" "new").esss.map (fun r => (r.id, r.feed))).Nodup ∧
    ((triggerFeedsUpdateUrl c4dbW "old" "new").search.map IndexRow.rowid).Nodup ∧
    (∀ r ∈ (triggerFeedsUpdateUrl c4dbW "old" "new").esss, ∀ rid ∈ r.es_rowids,
      ∃ row ∈ (triggerFeedsUpdateUrl c4dbW "old" "new").search,
        row.rowid = rid ∧ row._id = r.id ∧ row._feed = r.feed) ∧
    (∀ row ∈ (triggerFeedsUpdateUrl c4dbW "old" "new").search,
      ∃ r ∈ (triggerFeedsUpdateUrl c4dbW "old" "new").esss, row.rowid ∈ r.es_rowids) :=
  feeds_update_url_rename c4dbW
    ⟨by decide, by decide, by decide, by decide, by decide, by decide, by decide⟩
    "old" "new" (by decide) (by decide)

/-! ## C2: exactly which IndexRows an entry contributes -/

/-- Spec-side characterization of an entry's fragment paths: one
`.content[i].value` per content item whose MIME type is empty, plain, HTML
or XHTML (in content order), plus `.summary` if the summary is present,
and the single null path if neither yields a fragment. -/
def specContentPaths (e : Entry) : List (Option String) :=
  let contentPaths := e.content.enum.filterMap (fun ic =>
    if eligibleContentType ic.2.type then some (some (pathLabel ic.1)) else none)
  let paths := contentPaths ++ (if pyTruthyStr e.summary then [some ".summary"] else [])
  if paths.isEmpty then [none] else paths

/-- Fixture: two content items (one HTML, one unsupported MIME type) and a
summary. -/
def c2TwoEntry : Entry :=
  ⟨"e", "f", 1, some "t", some "s",
   [⟨some "<b>v</b>", some "text/html"⟩, ⟨some "x", some "application/json"⟩]⟩

/-- Fixture: empty content and empty summary. -/
def c2EmptyEntry : Entry :=
  ⟨"e", "f", 1, some "t", some "", []⟩

/-- C2: the IndexRows written for an entry carry exactly the spec's fragment
paths (eligible content items in order, then the summary when present, else
one null-fragment row); in particular the two fixtures yield exactly 2 rows
(HTML item + summary, never 3) and exactly 1 null-fragment row. -/
theorem index_rows_per_entry (norm : String → String) (e : Entry) (r : SyncState)
    (f : Feed) (next : Nat) :
    (mkIndexRows (mkSnapshot norm r e f) next).map IndexRow._content_path =
      specContentPaths e ∧
    (mkIndexRows (mkSnapshot norm r e f) next).length = (specContentPaths e).length ∧
    (entryFinal norm c2TwoEntry).length = 2 ∧
    (entryFinal norm c2TwoEntry).map Prod.snd =
      [some ".content[0].value", some ".summary"] ∧
    entryFinal norm c2EmptyEntry = [(none, none)] := by
  have hfrag : (mkIndexRows (mkSnapshot norm r e f) next).map IndexRow._content_path =
      (entryFinal norm e).map Prod.snd := by
    rw [mkIndexRows, List.map_map]
    show (mkSnapshot norm r e f).fragments.enum.map (fun icv => icv.2.2) = _
    have h1 : (mkSnapshot norm r e f).fragments.enum.map (fun icv => icv.2.2) =
        ((mkSnapshot norm r e f).fragments.enum.map Prod.snd).map Prod.snd := by
      rw [List.map_map]
      rfl
    rw [h1, List.enum_map_snd]
    rfl
  have hpaths : (entryFinal norm e).map Prod.snd = specContentPaths e := by
    rw [entryFinal, specContentPaths]
    set A := e.content.enum.filterMap (fun ic =>
      if eligibleContentType ic.2.type then
        some (strip_html norm ic.2.value, some (pathLabel ic.1))
      else none) with hA
    set B := (if pyTruthyStr e.summary then
      [(strip_html norm e.summary, some ".summary")] else
      ([] : List (Option String × Option String))) with hB
    have hmapA : A.map Prod.snd = e.content.enum.filterMap (fun ic =>
        if eligibleContentType ic.2.type then some (some (pathLabel ic.1)) else none) := by
      rw [hA, List.map_filterMap]
      refine List.filterMap_congr ?_
      intro x _
      by_cases c : eligibleContentType x.2.type = true
      · rw [if_pos c, if_pos c]
        rfl
      · rw [if_neg c, if_neg c]
        rfl
    have hmapB : B.map Prod.snd =
        (if pyTruthyStr e.summary then [some ".summary"] else []) := by
      rw [hB]
      by_cases c : pyTruthyStr e.summary = true
      · rw [if_pos c, if_pos c]
        rfl
      · rw [if_neg c, if_neg c]
        rfl
    by_cases hempty : (A ++ B).isEmpty = true
    · have h0 : A ++ B = [] := List.isEmpty_iff.mp hempty
      have h0' : A.map Prod.snd ++ B.map Prod.snd = [] := by
        rw [← List.map_append, h0]
        rfl
      rw [if_pos hempty, if_pos (by rw [← hmapA, ← hmapB]; exact List.isEmpty_iff.mpr h0')]
      rfl
    · have h0 : A ++ B ≠ [] := fun h => hempty (List.isEmpty_iff.mpr h)
      have h0' : A.map Prod.snd ++ B.map Prod.snd ≠ [] := by
        rw [← List.map_append]
        intro hmap
        exact h0 (List.map_eq_nil_iff.mp hmap)
      rw [if_neg hempty,
        if_neg (fun hc => h0' (by rw [hmapA, hmapB]; exact List.isEmpty_iff.mp hc)),
        List.map_append, hmapA, hmapB]
  refine ⟨hfrag.trans hpaths, ?_, by rfl, by rfl, by rfl⟩
  have := congrArg List.length (hfrag.trans hpaths)
  rw [List.length_map] at this
  exact this

/-! ## C3: the optimistic re-check of the write phase -/

lemma listSetEq_iff (a b : List Nat) : listSetEq a b = true ↔ ∀ x, x ∈ a ↔ x ∈ b := by
  rw [listSetEq]
  simp only [Bool.and_eq_true, List.all_eq_true, List.elem_iff]
  constructor
  · rintro ⟨h1, h2⟩ x
    exact ⟨fun hx => h1 x hx, fun hx => h2 x hx⟩
  · intro h
    exact ⟨fun x hx => (h x).mp hx, fun x hx => (h x).mpr hx⟩

/-- C3: a per-entry write transaction rewrites the entry's index data if and
only if, on re-read, `to_update` is still set, `es_rowids` still equals (as
a set) the phase-1 snapshot, and the entry still exists with unchanged
`last_updated`; otherwise it returns the state unchanged (skip, no error).
On success the snapshot rowids are deleted, one IndexRow per fragment is
inserted, and the record gets `to_update = 0` and the new rowids. -/
theorem write_phase_rewrites_iff (db : DB) (g : Snapshot) :
    processGroup db g =
      (if writeChecksSync db g && writeChecksEntry db g then rewriteEntry db g else db) ∧
    ((writeChecksSync db g && writeChecksEntry db g) = true ↔
      ((∃ r, lookupSync db.esss g._id g._feed = some r ∧ r.to_update = true ∧
          (∀ rid, rid ∈ r.es_rowids ↔ rid ∈ g._es_rowids)) ∧
       (∃ e, lookupEntry db g._id g._feed = some e ∧
          e.last_updated = g._last_updated))) ∧
    ((rewriteEntry db g).search =
      db.search.filter (fun row => !(g._es_rowids.contains row.rowid)) ++
        mkIndexRows g db.nextRowid) ∧
    (∀ r ∈ db.esss, r.id = g._id → r.feed = g._feed →
      { r with to_update := false,
               es_rowids := (mkIndexRows g db.nextRowid).map IndexRow.rowid } ∈
        (rewriteEntry db g).esss) := by
  refine ⟨?_, ?_, rfl, ?_⟩
  · cases hs : writeChecksSync db g <;> cases he : writeChecksEntry db g <;>
      simp [processGroup, hs, he]
  · cases hl : lookupSync db.esss g._id g._feed with
    | none => simp [writeChecksSync, hl]
    | some r =>
      cases hle : lookupEntry db g._id g._feed with
      | none => simp [writeChecksSync, writeChecksEntry, hl, hle]
      | some e0 =>
        simp only [writeChecksSync, writeChecksEntry, hl, hle, Bool.and_eq_true,
          Option.some.injEq, beq_iff_eq]
        rw [listSetEq_iff]
        constructor
        · rintro ⟨⟨hup, hset⟩, hlu⟩
          exact ⟨⟨r, rfl, hup, hset⟩, ⟨e0, rfl, hlu⟩⟩
        · rintro ⟨⟨r', hr', hup, hset⟩, ⟨e', he', hlu⟩⟩
          cases hr'
          cases he'
          exact ⟨⟨hup, hset⟩, hlu⟩
  · intro r hr hid hfeed
    exact (mem_map_update db.esss _ (fun s => s.id == g._id && s.feed == g._feed) r hr).1
      (by simp [hid, hfeed])

/-- Witness for C3: on a concrete matching state the checks pass and the
record is rewritten with `to_update = 0` and the fresh rowids. -/
def c3db : DB :=
  ⟨[⟨"e", "f", 1, some "t", some "s", []⟩], [⟨"f", some "F", none⟩],
   [⟨"e", "f", true, false, [1]⟩],
   [⟨1, some "t", some "old", some "F", "e", "f", some ".summary", false⟩], 2⟩

def c3snap : Snapshot :=
  mkSnapshot id ⟨"e", "f", true, false, [1]⟩ ⟨"e", "f", 1, some "t", some "s", []⟩
    ⟨"f", some "F", none⟩

theorem write_phase_rewrites_iff_witness :
    { id := "e", feed := "f", to_update := false, to_delete := false,
      es_rowids := (mkIndexRows c3snap c3db.nextRowid).map IndexRow.rowid :
        SyncState } ∈ (rewriteEntry c3db c3snap).esss :=
  (write_phase_rewrites_iff c3db c3snap).2.2.2 ⟨"e", "f", true, false, [1]⟩
    (by decide) rfl rfl

/-! ## C6: the deletion processor -/

lemma effChunk_pos (cs : Nat) : 1 ≤ effChunk cs := by
  cases cs with
  | zero => exact Nat.le_refl 1
  | succ n => simp [effChunk]

lemma effChunk_eq_max (cs : Nat) : effChunk cs = max cs 1 := by
  cases cs with
  | zero => rfl
  | succ n =>
    simp only [effChunk, Nat.succ_ne_zero, beq_iff_eq, if_false]
    omega

lemma delete_from_search_succ (cs fuel : Nat) (db : DB) :
    delete_from_search cs (fuel + 1) db =
      if (delete_from_search_one_chunk db cs).2 then
        delete_from_search cs fuel (delete_from_search_one_chunk db cs).1
      else (delete_from_search_one_chunk db cs).1 :=
  rfl

lemma delete_chunk_empty (db : DB) (cs : Nat)
    (h : (deleteSelected db cs).isEmpty = true) :
    delete_from_search_one_chunk db cs = (db, false) := by
  rw [delete_from_search_one_chunk, if_pos h]

lemma delete_chunk_nonempty (db : DB) (cs : Nat)
    (h : ¬ (deleteSelected db cs).isEmpty = true) :
    delete_from_search_one_chunk db cs =
      ({ db with
          search := db.search.filter (fun row =>
            !(((deleteSelected db cs).flatMap SyncState.es_rowids).contains row.rowid))
          esss := db.esss.filter (fun r =>
            !((deleteSelected db cs).any (fun s => s.id == r.id && s.feed == r.feed))) },
       !((deleteSelected db cs).length < effChunk cs)) := by
  rw [delete_from_search_one_chunk, if_neg h]

/-- If a chunk selects every flagged record, the resulting state has no
`to_delete` flag left. -/
lemma no_flags_after_full_chunk (db : DB) (cs : Nat)
    (hfull : deleteSelected db cs = db.esss.filter (fun r => r.to_delete)) :
    ∀ r ∈ db.esss.filter (fun r =>
        !((deleteSelected db cs).any (fun s => s.id == r.id && s.feed == r.feed))),
      r.to_delete = false := by
  intro r hr
  obtain ⟨hmem, hcond⟩ := List.mem_filter.mp hr
  by_contra hc
  have hdel : r.to_delete = true := by
    cases hb : r.to_delete
    · exact absurd hb hc
    · rfl
  have hrsel : r ∈ deleteSelected db cs := by
    rw [hfull]
    exact List.mem_filter.mpr ⟨hmem, hdel⟩
  have hany : (deleteSelected db cs).any (fun s => s.id == r.id && s.feed == r.feed) =
      true :=
    List.any_eq_true.mpr ⟨r, hrsel, by simp⟩
  rw [hany] at hcond
  exact absurd hcond (by simp)

/-- Draining with fuel larger than the table reaches quiescence: no record
is left with `to_delete = 1`. -/
lemma delete_drain_quiesces (cs : Nat) : ∀ (fuel : Nat) (db : DB),
    db.esss.length < fuel →
    ∀ r ∈ (delete_from_search cs fuel db).esss, r.to_delete = false := by
  intro fuel
  induction fuel with
  | zero =>
    intro db h
    omega
  | succ fuel ih =>
    intro db hlen
    rw [delete_from_search_succ]
    by_cases hemp : (deleteSelected db cs).isEmpty = true
    · rw [delete_chunk_empty db cs hemp]
      simp only [Bool.false_eq_true, if_false]
      have h0 : deleteSelected db cs = [] := List.isEmpty_iff.mp hemp
      have hnone : db.esss.filter (fun r => r.to_delete) = [] := by
        rw [deleteSelected] at h0
        rcases List.take_eq_nil_iff.mp h0 with h | h
        · have := effChunk_pos cs
          omega
        · exact h
      intro r hr
      by_contra hc
      have hdel : r.to_delete = true := by
        cases hb : r.to_delete
        · exact absurd hb hc
        · rfl
      have : r ∈ db.esss.filter (fun r => r.to_delete) := List.mem_filter.mpr ⟨hr, hdel⟩
      rw [hnone] at this
      exact absurd this (List.not_mem_nil r)
    · obtain ⟨r0, hr0⟩ : ∃ r0, r0 ∈ deleteSelected db cs := by
        rcases hl : deleteSelected db cs with _ | ⟨a, l⟩
        · rw [hl] at hemp
          exact absurd rfl hemp
        · exact ⟨a, List.mem_cons_self a l⟩
      have hr0flag : r0 ∈ db.esss.filter (fun r => r.to_delete) := by
        have hh := hr0
        rw [deleteSelected] at hh
        exact List.mem_of_mem_take hh
      have hr0mem : r0 ∈ db.esss := List.mem_of_mem_filter hr0flag
      have hr0rm : ¬ (!((deleteSelected db cs).any
          (fun s => s.id == r0.id && s.feed == r0.feed))) = true := by
        have hany : (deleteSelected db cs).any
            (fun s => s.id == r0.id && s.feed == r0.feed) = true :=
          List.any_eq_true.mpr ⟨r0, hr0, by simp⟩
        rw [hany]
        simp
      rw [delete_chunk_nonempty db cs hemp]
      have hlt : (db.esss.filter (fun r =>
          !((deleteSelected db cs).any (fun s => s.id == r.id && s.feed == r.feed)))).length <
          db.esss.length :=
        List.length_filter_lt_length_iff_exists.mpr ⟨r0, hr0mem, hr0rm⟩
      by_cases hshort : (deleteSelected db cs).length < effChunk cs
      · rw [if_neg (by simp [hshort])]
        have hfull : deleteSelected db cs = db.esss.filter (fun r => r.to_delete) := by
          rw [deleteSelected]
          refine List.take_of_length_le ?_
          rw [deleteSelected, List.length_take] at hshort
          omega
        exact no_flags_after_full_chunk db cs hfull
      · rw [if_pos (by simp [hshort])]
        exact ih _ (by simp only [List.length_cons] at hlen ⊢; omega)

/-- C6: one deletion chunk selects at most `max cs 1` flagged records (a
chunk size of 0 degrades to 1), deletes exactly the IndexRows listed in the
selected records' `es_rowids` together with the selected records, and the
drain loop stops exactly when a chunk returns fewer rows than requested;
with fuel covering the table, the drain reaches a state with no
`to_delete` flag. -/
theorem delete_chunk_drain_spec (db : DB) (cs : Nat) :
    (deleteSelected db cs).length ≤ max cs 1 ∧
    effChunk 0 = 1 ∧
    (delete_from_search_one_chunk db cs).1.search =
      db.search.filter (fun row =>
        !(((deleteSelected db cs).flatMap SyncState.es_rowids).contains row.rowid)) ∧
    (delete_from_search_one_chunk db cs).1.esss =
      db.esss.filter (fun r =>
        !((deleteSelected db cs).any (fun s => s.id == r.id && s.feed == r.feed))) ∧
    ((delete_from_search_one_chunk db cs).2 = false ↔
      (deleteSelected db cs).length < effChunk cs) ∧
    (∀ r ∈ (delete_from_search cs (db.esss.length + 1) db).esss,
      r.to_delete = false) := by
  refine ⟨?_, rfl, ?_, ?_, ?_, ?_⟩
  · rw [← effChunk_eq_max, deleteSelected]
    exact List.length_take_le _ _
  · by_cases h : (deleteSelected db cs).isEmpty = true
    · rw [delete_chunk_empty db cs h]
      have h0 : deleteSelected db cs = [] := List.isEmpty_iff.mp h
      rw [h0]
      exact (List.filter_eq_self.mpr (fun x _ => rfl)).symm
    · rw [delete_chunk_nonempty db cs h]
  · by_cases h : (deleteSelected db cs).isEmpty = true
    · rw [delete_chunk_empty db cs h]
      have h0 : deleteSelected db cs = [] := List.isEmpty_iff.mp h
      rw [h0]
      exact (List.filter_eq_self.mpr (fun x _ => rfl)).symm
    · rw [delete_chunk_nonempty db cs h]
  · by_cases h : (deleteSelected db cs).isEmpty = true
    · rw [delete_chunk_empty db cs h]
      have h0 : deleteSelected db cs = [] := List.isEmpty_iff.mp h
      rw [h0]
      simp only [List.length_nil, true_iff]
      have := effChunk_pos cs
      omega
    · rw [delete_chunk_nonempty db cs h]
      simp
  · exact delete_drain_quiesces cs (db.esss.length + 1) db (Nat.lt_succ_self _)

/-- Witness for C6: a state with one pending deletion and one clean record;
after the drain the clean record remains with `to_delete = 0`. -/
def c6db : DB :=
  ⟨[], [], [⟨"e1", "f", false, true, [1]⟩, ⟨"e2", "f", false, false, [2]⟩],
   [⟨1, none, none, none, "e1", "f", none, false⟩,
    ⟨2, none, none, none, "e2", "f", none, false⟩], 3⟩

theorem delete_chunk_drain_spec_witness :
    (⟨"e2", "f", false, false, [2]⟩ : SyncState).to_delete = false :=
  (delete_chunk_drain_spec c6db 2).2.2.2.2.2 ⟨"e2", "f", false, false, [2]⟩ (by decide)

/-! ## C1: the sync invariant through mutations and `update()` -/

/-- The full reachable-state invariant: index consistency plus the
primary-store facts the processors rely on (unique entry keys, a live entry
behind every non-deleted record, and a feed row behind every entry). -/
structure Inv (db : DB) extends SyncInv db : Prop where
  entriesKeysNodup : (db.entries.map (fun e => (e.id, e.feed))).Nodup
  liveEntry : ∀ r ∈ db.esss, r.to_delete = false →
    ∃ e ∈ db.entries, e.id = r.id ∧ e.feed = r.feed
  feedCover : ∀ e ∈ db.entries, ∃ f ∈ db.feeds, f.url = e.feed

lemma inv_init (feeds : List Feed) : Inv (initDB feeds) := by
  refine ⟨⟨?_, ?_, ?_, ?_, ?_, ?_, ?_⟩, ?_, ?_, ?_⟩ <;>
    simp [initDB]

/-- Keys survive a conditional keyed update of the record list. -/
lemma keys_map_keyed (esss : List SyncState) (cond : SyncState → Bool)
    (f : SyncState → SyncState) (hf : ∀ r, (f r).id = r.id ∧ (f r).feed = r.feed) :
    (esss.map (fun r => if cond r then f r else r)).map (fun r => (r.id, r.feed)) =
      esss.map (fun r => (r.id, r.feed)) := by
  rw [List.map_map]
  refine List.map_congr_left ?_
  intro r _
  show ((if cond r then f r else r).id, (if cond r then f r else r).feed) = _
  by_cases c : cond r = true
  · rw [if_pos c, (hf r).1, (hf r).2]
  · rw [if_neg c]

/-- `find?` over a conditional keyed update. -/
lemma lookupSync_map_keyed (esss : List SyncState) (kid kfeed : String)
    (f : SyncState → SyncState) (hf : ∀ r, (f r).id = r.id ∧ (f r).feed = r.feed)
    (id feed : String) :
    lookupSync (esss.map (fun r => if r.id == kid && r.feed == kfeed then f r else r))
        id feed =
      (lookupSync esss id feed).map
        (fun r => if r.id == kid && r.feed == kfeed then f r else r) := by
  rw [lookupSync, lookupSync, List.find?_map]
  have hcongr : ((fun s : SyncState => s.id == id && s.feed == feed) ∘
      (fun s : SyncState => if s.id == kid && s.feed == kfeed then f s else s)) =
      (fun r : SyncState => r.id == id && r.feed == feed) := by
    funext r
    show ((if r.id == kid && r.feed == kfeed then f r else r).id == id &&
      (if r.id == kid && r.feed == kfeed then f r else r).feed == feed) = _
    by_cases c : (r.id == kid && r.feed == kfeed) = true
    · rw [if_pos c, (hf r).1, (hf r).2]
    · rw [if_neg c]
  rw [hcongr]

/-- `countP` strictly drops when one member turns false and none turns true. -/
lemma countP_pointwise_lt {α : Type} (l : List α) (p q : α → Bool)
    (hle : ∀ x ∈ l, q x = true → p x = true) :
    ∀ x0 ∈ l, p x0 = true → q x0 = false → l.countP q < l.countP p := by
  induction l with
  | nil =>
    intro x0 h
    exact absurd h (List.not_mem_nil x0)
  | cons a t ih =>
    intro x0 hx0 hp hq
    have hlet : ∀ x ∈ t, q x = true → p x = true :=
      fun x hx => hle x (List.mem_cons_of_mem a hx)
    rcases List.mem_cons.mp hx0 with rfl | hx0t
    · rw [List.countP_cons, List.countP_cons, hp, hq]
      have h1 : (if (true : Bool) = true then 1 else 0) = 1 := rfl
      have h2 : (if (false : Bool) = true then 1 else 0) = 0 := rfl
      rw [h1, h2]
      have hmono := List.countP_mono_left hlet
      omega
    · have hstrict := ih hlet x0 hx0t hp hq
      rw [List.countP_cons, List.countP_cons]
      have hhead : (if q a = true then 1 else 0) ≤ (if p a = true then 1 else 0) := by
        by_cases c : q a = true
        · rw [if_pos c, if_pos (hle a (List.mem_cons_self a t) c)]
        · rw [if_neg c]
          omega
      omega

/-- Keys of a `filterMap` image form a sublist of the source keys. -/
lemma map_filterMap_sublist {α β γ : Type} (f : α → Option β) (k : α → γ) (k' : β → γ)
    (h : ∀ x y, f x = some y → k' y = k x) :
    ∀ l : List α, ((l.filterMap f).map k').Sublist (l.map k) := by
  intro l
  induction l with
  | nil => exact List.Sublist.refl []
  | cons a t ih =>
    rw [List.filterMap_cons]
    cases hfa : f a with
    | none =>
      exact (List.map_cons k a t) ▸ ih.cons (k a)
    | some b =>
      rw [List.map_cons, List.map_cons, h a b hfa]
      exact ih.cons₂ (k a)

lemma length_filterMap_of_isSome {α β : Type} (f : α → Option β) :
    ∀ l : List α, (∀ x ∈ l, (f x).isSome = true) →
      (l.filterMap f).length = l.length := by
  intro l
  induction l with
  | nil => intro _; rfl
  | cons a t ih =>
    intro h
    rw [List.filterMap_cons]
    cases hfa : f a with
    | none =>
      have := h a (List.mem_cons_self a t)
      rw [hfa] at this
      exact absurd this (by simp)
    | some b =>
      rw [List.length_cons, ih (fun x hx => h x (List.mem_cons_of_mem a hx))]
      rw [List.length_cons]

/-- The rowids handed out for one entry are `next, next+1, ...`. -/
lemma mkIndexRows_rowids (g : Snapshot) (next : Nat) :
    (mkIndexRows g next).map IndexRow.rowid =
      (List.range g.fragments.length).map (fun i => next + i) := by
  rw [mkIndexRows, List.map_map]
  have h1 : (IndexRow.rowid ∘ fun icv : Nat × (Option String × Option String) =>
      ({ rowid := next + icv.1, title := g.title, content := icv.2.1,
         feed := g.feed_title, _id := g._id, _feed := g._feed,
         _content_path := icv.2.2,
         _is_feed_user_title := g._is_feed_user_title } : IndexRow)) =
      (fun i => next + i) ∘ Prod.fst := rfl
  rw [h1, ← List.map_map, List.enum_map_fst]

lemma mkIndexRows_rowid_lt (g : Snapshot) (next : Nat) (row : IndexRow)
    (hrow : row ∈ mkIndexRows g next) :
    next ≤ row.rowid ∧ row.rowid < next + g.fragments.length := by
  have hmem : row.rowid ∈ (mkIndexRows g next).map IndexRow.rowid :=
    List.mem_map_of_mem _ hrow
  rw [mkIndexRows_rowids] at hmem
  obtain ⟨i, hi, hieq⟩ := List.mem_map.mp hmem
  rw [List.mem_range] at hi
  omega

lemma mkIndexRows_rowids_nodup (g : Snapshot) (next : Nat) :
    ((mkIndexRows g next).map IndexRow.rowid).Nodup := by
  rw [mkIndexRows_rowids]
  exact (List.nodup_range _).map (fun a b h => by omega)

lemma mkIndexRows_fields (g : Snapshot) (next : Nat) (row : IndexRow)
    (hrow : row ∈ mkIndexRows g next) : row._id = g._id ∧ row._feed = g._feed := by
  rw [mkIndexRows] at hrow
  obtain ⟨icv, _, rfl⟩ := List.mem_map.mp hrow
  exact ⟨rfl, rfl⟩

/-- Generic: a conditional in-place update that preserves keys preserves the
key list. -/
lemma keys_map_cond {α γ : Type} (l : List α) (key : α → γ) (cond : α → Bool)
    (f : α → α) (hf : ∀ x, cond x = true → key (f x) = key x) :
    (l.map (fun x => if cond x then f x else x)).map key = l.map key := by
  rw [List.map_map]
  refine List.map_congr_left ?_
  intro x _
  show key (if cond x then f x else x) = key x
  by_cases c : cond x = true
  · rw [if_pos c]
    exact hf x c
  · rw [if_neg c]

/-- A flags-only keyed update of the sync table (keys and `es_rowids`
untouched) preserves the index consistency invariant. -/
lemma syncInv_map_flags (db : DB) (hinv : SyncInv db) (cond : SyncState → Bool)
    (f : SyncState → SyncState)
    (hid : ∀ r, (f r).id = r.id) (hfeed : ∀ r, (f r).feed = r.feed)
    (hes : ∀ r, (f r).es_rowids = r.es_rowids) :
    SyncInv { db with esss := db.esss.map (fun r => if cond r then f r else r) } := by
  have gid : ∀ r : SyncState, (if cond r then f r else r).id = r.id := by
    intro r
    by_cases c : cond r = true
    · rw [if_pos c]
      exact hid r
    · rw [if_neg c]
  have gfeed : ∀ r : SyncState, (if cond r then f r else r).feed = r.feed := by
    intro r
    by_cases c : cond r = true
    · rw [if_pos c]
      exact hfeed r
    · rw [if_neg c]
  have ges : ∀ r : SyncState, (if cond r then f r else r).es_rowids = r.es_rowids := by
    intro r
    by_cases c : cond r = true
    · rw [if_pos c]
      exact hes r
    · rw [if_neg c]
  refine ⟨?_, hinv.rowidsNodup, ?_, ?_, ?_, ?_, hinv.rowidLt⟩
  · show ((db.esss.map fun r => if cond r then f r else r).map
      (fun r => (r.id, r.feed))).Nodup
    rw [keys_map_cond db.esss (fun r => (r.id, r.feed)) cond f
      (fun x _ => by rw [Prod.mk.injEq]; exact ⟨hid x, hfeed x⟩)]
    exact hinv.esssKeysNodup
  · intro r' hr'
    obtain ⟨r, hr, rfl⟩ := List.mem_map.mp hr'
    rw [ges]
    exact hinv.ownNodup r hr
  · intro r1' h1 r2' h2 rid h3 h4
    obtain ⟨r1, hr1, rfl⟩ := List.mem_map.mp h1
    obtain ⟨r2, hr2, rfl⟩ := List.mem_map.mp h2
    rw [ges] at h3
    rw [ges] at h4
    rw [hinv.ownDisj r1 hr1 r2 hr2 rid h3 h4]
  · intro r' hr' rid hrid
    obtain ⟨r, hr, rfl⟩ := List.mem_map.mp hr'
    rw [ges] at hrid
    obtain ⟨row, hrowm, h1, h2, h3⟩ := hinv.ownExists r hr rid hrid
    exact ⟨row, hrowm, h1, by rw [gid]; exact h2, by rw [gfeed]; exact h3⟩
  · intro row hrow
    obtain ⟨r, hr, hown⟩ := hinv.rowsOwned row hrow
    refine ⟨if cond r then f r else r, List.mem_map_of_mem _ hr, ?_⟩
    rw [ges]
    exact hown

lemma cond_key_eq {r : SyncState} {id feed : String}
    (h : (r.id == id && r.feed == feed) = true) : r.id = id ∧ r.feed = feed := by
  rcases Bool.and_eq_true_iff.mp h with ⟨h1, h2⟩
  exact ⟨eq_of_beq h1, eq_of_beq h2⟩

lemma entry_cond_key_eq {x : Entry} {id feed : String}
    (h : (x.id == id && x.feed == feed) = true) : x.id = id ∧ x.feed = feed := by
  rcases Bool.and_eq_true_iff.mp h with ⟨h1, h2⟩
  exact ⟨eq_of_beq h1, eq_of_beq h2⟩

/-- `updateEntry` preserves the invariant. -/
lemma inv_updateEntry (db : DB) (hinv : Inv db) (id feed : String)
    (t s : Option String) (c : List Content) (lu : Nat) :
    Inv (updateEntry db id feed t s c lu) := by
  rw [updateEntry]
  cases hle : lookupEntry db id feed with
  | none => exact hinv
  | some old =>
    dsimp only
    have holdkey : old.id = id ∧ old.feed = feed := by
      have := List.find?_some hle
      exact entry_cond_key_eq this
    set new : Entry := (⟨old.id, old.feed, lu, t, s, c⟩ : Entry) with hnew
    have hnewid : new.id = id := holdkey.1
    have hnewfeed : new.feed = feed := holdkey.2
    -- entries keep their keys
    have hekeys : ((db.entries.map (fun x =>
        if x.id == id && x.feed == feed then new else x)).map
          (fun e => (e.id, e.feed))) = db.entries.map (fun e => (e.id, e.feed)) :=
      keys_map_cond db.entries (fun e => (e.id, e.feed)) _ (fun _ => new)
        (fun x hx => by
          rw [Prod.mk.injEq, hnewid, hnewfeed]
          have := entry_cond_key_eq hx
          exact ⟨this.1.symm, this.2.symm⟩)
    -- the sync table gets at most a flags-only keyed update
    set E := db.entries.map (fun x => if x.id == id && x.feed == feed then new else x)
      with hE
    have hsyncE : SyncInv { db with entries := E } :=
      ⟨hinv.esssKeysNodup, hinv.rowidsNodup, hinv.ownNodup, hinv.ownDisj,
        hinv.ownExists, hinv.rowsOwned, hinv.rowidLt⟩
    have hsync : SyncInv { db with
        entries := E,
        esss := triggerEntriesUpdate db.esss old new } := by
      rw [triggerEntriesUpdate]
      by_cases hfire : entriesUpdateFires old new = true
      · rw [if_pos hfire]
        exact syncInv_map_flags { db with entries := E } hsyncE
          (fun r => r.id == new.id && r.feed == new.feed)
          (fun r => { r with to_update := true })
          (fun r => rfl) (fun r => rfl) (fun r => rfl)
      · rw [if_neg hfire]
        exact hsyncE
    refine ⟨hsync, ?_, ?_, ?_⟩
    · show ((db.entries.map fun x => if x.id == id && x.feed == feed then new else x).map
        (fun e => (e.id, e.feed))).Nodup
      rw [hekeys]
      exact hinv.entriesKeysNodup
    · -- liveEntry
      intro r' hr' hdel
      have hr'src : ∃ r ∈ db.esss, r.id = r'.id ∧ r.feed = r'.feed ∧
          r.to_delete = r'.to_delete := by
        revert hr'
        show r' ∈ (triggerEntriesUpdate db.esss old new) → _
        rw [triggerEntriesUpdate]
        by_cases hfire : entriesUpdateFires old new = true
        · rw [if_pos hfire]
          intro hr'
          obtain ⟨r, hr, rfl⟩ := List.mem_map.mp hr'
          by_cases hc : (r.id == new.id && r.feed == new.feed) = true
          · rw [if_pos hc]
            exact ⟨r, hr, rfl, rfl, rfl⟩
          · rw [if_neg hc]
            exact ⟨r, hr, rfl, rfl, rfl⟩
        · rw [if_neg hfire]
          intro hr'
          exact ⟨r', hr', rfl, rfl, rfl⟩
      obtain ⟨r, hr, hi, hf2, hd⟩ := hr'src
      obtain ⟨e, he, hei, hef⟩ := hinv.liveEntry r hr (by rw [hd]; exact hdel)
      refine ⟨if e.id == id && e.feed == feed then new else e,
        List.mem_map_of_mem _ he, ?_⟩
      by_cases hc : (e.id == id && e.feed == feed) = true
      · rw [if_pos hc]
        have := entry_cond_key_eq hc
        rw [hnewid, hnewfeed, ← this.1, ← this.2, hei, hef, hi, hf2]
        exact ⟨rfl, rfl⟩
      · rw [if_neg hc]
        rw [hei, hef, hi, hf2]
        exact ⟨rfl, rfl⟩
    · -- feedCover
      intro e' he'
      obtain ⟨e, he, rfl⟩ := List.mem_map.mp he'
      obtain ⟨f, hf, hfurl⟩ := hinv.feedCover e he
      by_cases hc : (e.id == id && e.feed == feed) = true
      · rw [if_pos hc]
        refine ⟨f, hf, ?_⟩
        have hnf : new.feed = old.feed := rfl
        rw [hnf, holdkey.2, ← (entry_cond_key_eq hc).2]
        exact hfurl
      · rw [if_neg hc]
        exact ⟨f, hf, hfurl⟩

/-- `deleteEntry` preserves the invariant. -/
lemma inv_deleteEntry (db : DB) (hinv : Inv db) (id feed : String) :
    Inv (deleteEntry db id feed) := by
  rw [deleteEntry]
  cases hle : lookupEntry db id feed with
  | none => exact hinv
  | some old =>
    dsimp only
    have hpred := List.find?_some hle
    have holdkey : old.id = id ∧ old.feed = feed := entry_cond_key_eq hpred
    set E := db.entries.filter (fun x => !(x.id == id && x.feed == feed)) with hE
    have hsyncE : SyncInv { db with entries := E } :=
      ⟨hinv.esssKeysNodup, hinv.rowidsNodup, hinv.ownNodup, hinv.ownDisj,
        hinv.ownExists, hinv.rowsOwned, hinv.rowidLt⟩
    have hsync : SyncInv { db with
        entries := E,
        esss := triggerEntriesDelete db.esss old } := by
      rw [triggerEntriesDelete]
      exact syncInv_map_flags { db with entries := E } hsyncE
        (fun r => r.id == old.id && r.feed == old.feed)
        (fun r => { r with to_delete := true })
        (fun r => rfl) (fun r => rfl) (fun r => rfl)
    refine ⟨hsync, ?_, ?_, ?_⟩
    · show (E.map (fun x => (x.id, x.feed))).Nodup
      exact List.Nodup.sublist ((List.filter_sublist _).map _) hinv.entriesKeysNodup
    · intro r' hr' hdel
      show ∃ x ∈ E, x.id = r'.id ∧ x.feed = r'.feed
      obtain ⟨r, hr, rfl⟩ := List.mem_map.mp hr'
      by_cases hc : (r.id == old.id && r.feed == old.feed) = true
      · rw [if_pos hc] at hdel
        exact absurd hdel (by simp)
      · rw [if_neg hc] at hdel ⊢
        obtain ⟨e, he, hei, hef⟩ := hinv.liveEntry r hr hdel
        refine ⟨e, List.mem_filter.mpr ⟨he, ?_⟩, hei, hef⟩
        have hfalse : (e.id == id && e.feed == feed) = false := by
          cases hb : (e.id == id && e.feed == feed) with
          | false => rfl
          | true =>
            have hk := entry_cond_key_eq hb
            have h1 : r.id = old.id := by
              rw [← hei, hk.1, holdkey.1]
            have h2 : r.feed = old.feed := by
              rw [← hef, hk.2, holdkey.2]
            exact absurd (by simp [h1, h2]) hc
        rw [hfalse]
        rfl
    · intro e he
      exact hinv.feedCover e (List.mem_of_mem_filter he)

/-- `insertEntry` preserves the invariant, provided the inserted entry's
feed exists (the primary store's foreign key). -/
lemma inv_insertEntry (db : DB) (hinv : Inv db) (e : Entry)
    (hfeed : db.feeds.any (fun f => f.url == e.feed) = true) :
    Inv (insertEntry db e) := by
  rw [insertEntry]
  set E := db.entries.filter (fun x => !(x.id == e.id && x.feed == e.feed)) ++ [e]
    with hE
  have hekeys : (E.map (fun x => (x.id, x.feed))).Nodup := by
    rw [hE, List.map_append, List.nodup_append]
    refine ⟨List.Nodup.sublist ((List.filter_sublist _).map _) hinv.entriesKeysNodup,
      by simp, ?_⟩
    intro k hk hk2
    obtain ⟨x, hx, rfl⟩ := List.mem_map.mp hk
    have hxf := (List.mem_filter.mp hx).2
    have hk3 : x.id = e.id ∧ x.feed = e.feed := by simpa using hk2
    rw [show (x.id == e.id && x.feed == e.feed) = true from by simp [hk3.1, hk3.2]]
      at hxf
    exact absurd hxf (by simp)
  have hfcover : ∀ x ∈ E, ∃ f ∈ db.feeds, f.url = x.feed := by
    intro x hx
    rcases List.mem_append.mp hx with hx1 | hx2
    · exact hinv.feedCover x (List.mem_of_mem_filter hx1)
    · obtain rfl := List.mem_singleton.mp hx2
      obtain ⟨f, hf, hfb⟩ := List.any_eq_true.mp hfeed
      exact ⟨f, hf, eq_of_beq hfb⟩
  have hmemE : e ∈ E := List.mem_append_right _ (by simp)
  rw [triggerEntriesInsert]
  cases hls : lookupSync db.esss e.id e.feed with
  | none =>
    dsimp only
    have hnokey : ∀ r ∈ db.esss, ¬(r.id = e.id ∧ r.feed = e.feed) := by
      intro r hr hk
      have hnp := List.find?_eq_none.mp hls r hr
      exact hnp (by simp [hk.1, hk.2])
    refine ⟨⟨?_, hinv.rowidsNodup, ?_, ?_, ?_, ?_, hinv.rowidLt⟩, hekeys, ?_, hfcover⟩
    · rw [List.map_append, List.nodup_append]
      refine ⟨hinv.esssKeysNodup, by simp, ?_⟩
      intro k hk hk2
      obtain ⟨r, hr, rfl⟩ := List.mem_map.mp hk
      have hk3 : r.id = e.id ∧ r.feed = e.feed := by simpa using hk2
      exact hnokey r hr ⟨hk3.1, hk3.2⟩
    · intro r hr
      rcases List.mem_append.mp hr with h | h
      · exact hinv.ownNodup r h
      · obtain rfl := List.mem_singleton.mp h
        exact List.nodup_nil
    · intro r1 h1 r2 h2 rid h3 h4
      rcases List.mem_append.mp h1 with h1' | h1'
      · rcases List.mem_append.mp h2 with h2' | h2'
        · exact hinv.ownDisj r1 h1' r2 h2' rid h3 h4
        · obtain rfl := List.mem_singleton.mp h2'
          exact absurd h4 (List.not_mem_nil rid)
      · obtain rfl := List.mem_singleton.mp h1'
        exact absurd h3 (List.not_mem_nil rid)
    · intro r hr rid hrid
      rcases List.mem_append.mp hr with h | h
      · exact hinv.ownExists r h rid hrid
      · obtain rfl := List.mem_singleton.mp h
        exact absurd hrid (List.not_mem_nil rid)
    · intro row hrow
      obtain ⟨r, hr, hown⟩ := hinv.rowsOwned row hrow
      exact ⟨r, List.mem_append_left _ hr, hown⟩
    · intro r hr hdel
      rcases List.mem_append.mp hr with h | h
      · obtain ⟨e0, he0, hi, hf2⟩ := hinv.liveEntry r h hdel
        by_cases hc : (e0.id == e.id && e0.feed == e.feed) = true
        · have hk := entry_cond_key_eq hc
          exact ⟨e, hmemE, by rw [← hk.1]; exact hi, by rw [← hk.2]; exact hf2⟩
        · refine ⟨e0, List.mem_append_left _ (List.mem_filter.mpr ⟨he0, ?_⟩), hi, hf2⟩
          rw [show (e0.id == e.id && e0.feed == e.feed) = false from by
            cases hb : (e0.id == e.id && e0.feed == e.feed)
            · rfl
            · exact absurd hb hc]
          rfl
      · obtain rfl := List.mem_singleton.mp h
        exact ⟨e, hmemE, rfl, rfl⟩
  | some r0 =>
    dsimp only
    have hsyncE : SyncInv { db with entries := E } :=
      ⟨hinv.esssKeysNodup, hinv.rowidsNodup, hinv.ownNodup, hinv.ownDisj,
        hinv.ownExists, hinv.rowsOwned, hinv.rowidLt⟩
    have hs := syncInv_map_flags { db with entries := E } hsyncE
      (fun r => r.id == e.id && r.feed == e.feed)
      (fun r => { r with to_update := true, to_delete := false })
      (fun r => rfl) (fun r => rfl) (fun r => rfl)
    refine ⟨hs, hekeys, ?_, hfcover⟩
    intro r' hr' hdel
    show ∃ x ∈ E, x.id = r'.id ∧ x.feed = r'.feed
    obtain ⟨r, hr, rfl⟩ := List.mem_map.mp hr'
    by_cases hc : (r.id == e.id && r.feed == e.feed) = true
    · rw [if_pos hc]
      exact ⟨e, hmemE, (cond_key_eq hc).1.symm, (cond_key_eq hc).2.symm⟩
    · rw [if_neg hc] at hdel ⊢
      obtain ⟨e0, he0, hi, hf2⟩ := hinv.liveEntry r hr hdel
      refine ⟨e0, List.mem_append_left _ (List.mem_filter.mpr ⟨he0, ?_⟩), hi, hf2⟩
      have hfalse : (e0.id == e.id && e0.feed == e.feed) = false := by
        cases hb : (e0.id == e.id && e0.feed == e.feed) with
        | false => rfl
        | true =>
          have hk := entry_cond_key_eq hb
          have h1 : r.id = e.id := by
            rw [← hi, hk.1]
          have h2 : r.feed = e.feed := by
            rw [← hf2, hk.2]
          exact absurd (by simp [h1, h2]) hc
      rw [hfalse]
      rfl

/-- Every valid primary-store mutation preserves the invariant. -/
lemma inv_applyOp (db : DB) (hinv : Inv db) (op : Op)
    (hok : opOk db.feeds op = true) : Inv (applyOp db op) := by
  cases op with
  | insert e => exact inv_insertEntry db hinv e hok
  | update id feed t s c lu => exact inv_updateEntry db hinv id feed t s c lu
  | delete id feed => exact inv_deleteEntry db hinv id feed

lemma applyOp_feeds (db : DB) (op : Op) : (applyOp db op).feeds = db.feeds := by
  cases op with
  | insert e => rfl
  | update id feed t s c lu =>
    rw [applyOp, updateEntry]
    cases lookupEntry db id feed <;> rfl
  | delete id feed =>
    rw [applyOp, deleteEntry]
    cases lookupEntry db id feed <;> rfl

lemma inv_applyOps (ops : List Op) : ∀ (db : DB), Inv db →
    (∀ op ∈ ops, opOk db.feeds op = true) →
    Inv (applyOps db ops) ∧ (applyOps db ops).feeds = db.feeds := by
  induction ops with
  | nil =>
    intro db hinv _
    exact ⟨hinv, rfl⟩
  | cons op ops ih =>
    intro db hinv hok
    have h1 : Inv (applyOp db op) :=
      inv_applyOp db hinv op (hok op (List.mem_cons_self op ops))
    have hfeeds : (applyOp db op).feeds = db.feeds := applyOp_feeds db op
    have h2 := ih (applyOp db op) h1
      (fun o ho => by rw [hfeeds]; exact hok o (List.mem_cons_of_mem op ho))
    exact ⟨h2.1, h2.2.trans hfeeds⟩

/-- One deletion chunk preserves the invariant (and touches only the index
tables). -/
lemma inv_delete_chunk (db : DB) (hinv : Inv db) (cs : Nat) :
    Inv (delete_from_search_one_chunk db cs).1 ∧
    (delete_from_search_one_chunk db cs).1.entries = db.entries ∧
    (delete_from_search_one_chunk db cs).1.feeds = db.feeds := by
  by_cases hemp : (deleteSelected db cs).isEmpty = true
  · rw [delete_chunk_empty db cs hemp]
    exact ⟨hinv, rfl, rfl⟩
  · rw [delete_chunk_nonempty db cs hemp]
    set rows := deleteSelected db cs with hrows
    set removed := rows.flatMap SyncState.es_rowids with hrem
    have hrowsdb : ∀ s ∈ rows, s ∈ db.esss := by
      intro s hs
      rw [hrows, deleteSelected] at hs
      exact List.mem_of_mem_filter (List.mem_of_mem_take hs)
    have hinjKey : ∀ r₁ ∈ db.esss, ∀ r₂ ∈ db.esss,
        (r₁.id, r₁.feed) = (r₂.id, r₂.feed) → r₁ = r₂ :=
      List.inj_on_of_nodup_map hinv.esssKeysNodup
    have hsurvNotRemoved : ∀ r ∈ db.esss,
        (!(rows.any (fun s => s.id == r.id && s.feed == r.feed))) = true →
        ∀ rid ∈ r.es_rowids, removed.contains rid = false := by
      intro r hr hcond rid hrid
      cases hcb : removed.contains rid with
      | false => rfl
      | true =>
        obtain ⟨s, hs, hsin⟩ := List.mem_flatMap.mp (List.mem_of_elem_eq_true hcb)
        have heq : s = r := hinv.ownDisj s (hrowsdb s hs) r hr rid hsin hrid
        subst heq
        have hany : rows.any (fun x => x.id == s.id && x.feed == s.feed) = true :=
          List.any_eq_true.mpr ⟨s, hs, by simp⟩
        rw [hany] at hcond
        exact absurd hcond (by simp)
    have hownerSurvives : ∀ row ∈ db.search,
        (!(removed.contains row.rowid)) = true → ∀ r ∈ db.esss,
        row.rowid ∈ r.es_rowids →
        (!(rows.any (fun s => s.id == r.id && s.feed == r.feed))) = true := by
      intro row _ hcond r hr hown
      cases hcb : rows.any (fun s => s.id == r.id && s.feed == r.feed) with
      | false => rfl
      | true =>
        obtain ⟨s, hs, hsk⟩ := List.any_eq_true.mp hcb
        have hsr : s = r :=
          hinjKey s (hrowsdb s hs) r hr (by
            have := cond_key_eq hsk
            rw [Prod.mk.injEq]
            exact ⟨this.1, this.2⟩)
        subst hsr
        have hmemrem : row.rowid ∈ removed := List.mem_flatMap.mpr ⟨s, hs, hown⟩
        have hcontains : removed.contains row.rowid = true :=
          List.elem_eq_true_of_mem hmemrem
        rw [hcontains] at hcond
        exact absurd hcond (by simp)
    refine ⟨⟨⟨?_, ?_, ?_, ?_, ?_, ?_, ?_⟩, ?_, ?_, ?_⟩, rfl, rfl⟩
    · exact List.Nodup.sublist ((List.filter_sublist _).map _) hinv.esssKeysNodup
    · exact List.Nodup.sublist ((List.filter_sublist _).map _) hinv.rowidsNodup
    · intro r hr
      exact hinv.ownNodup r (List.mem_of_mem_filter hr)
    · intro r1 h1 r2 h2 rid h3 h4
      exact hinv.ownDisj r1 (List.mem_of_mem_filter h1) r2 (List.mem_of_mem_filter h2)
        rid h3 h4
    · intro r hr rid hrid
      obtain ⟨hrdb, hcond⟩ := List.mem_filter.mp hr
      obtain ⟨row, hrowm, hroweq, hid, hfeed⟩ := hinv.ownExists r hrdb rid hrid
      refine ⟨row, List.mem_filter.mpr ⟨hrowm, ?_⟩, hroweq, hid, hfeed⟩
      rw [hroweq, hsurvNotRemoved r hrdb hcond rid hrid]
      rfl
    · intro row hrow
      obtain ⟨hrowdb, hcond⟩ := List.mem_filter.mp hrow
      obtain ⟨r, hrdb, hown⟩ := hinv.rowsOwned row hrowdb
      exact ⟨r, List.mem_filter.mpr
        ⟨hrdb, hownerSurvives row hrowdb hcond r hrdb hown⟩, hown⟩
    · intro row hrow
      exact hinv.rowidLt row (List.mem_of_mem_filter hrow)
    · exact hinv.entriesKeysNodup
    · intro r hr hdel
      exact hinv.liveEntry r (List.mem_of_mem_filter hr) hdel
    · exact hinv.feedCover

/-- The deletion drain preserves the invariant and the primary tables. -/
lemma inv_delete_drain (cs : Nat) : ∀ (fuel : Nat) (db : DB), Inv db →
    Inv (delete_from_search cs fuel db) ∧
    (delete_from_search cs fuel db).entries = db.entries ∧
    (delete_from_search cs fuel db).feeds = db.feeds := by
  intro fuel
  induction fuel with
  | zero =>
    intro db hinv
    exact ⟨hinv, rfl, rfl⟩
  | succ fuel ih =>
    intro db hinv
    rw [delete_from_search_succ]
    obtain ⟨hinv1, hent1, hfeeds1⟩ := inv_delete_chunk db hinv cs
    by_cases hdone : (delete_from_search_one_chunk db cs).2 = true
    · rw [if_pos hdone]
      obtain ⟨h1, h2, h3⟩ := ih (delete_from_search_one_chunk db cs).1 hinv1
      exact ⟨h1, h2.trans hent1, h3.trans hfeeds1⟩
    · rw [if_neg hdone]
      exact ⟨hinv1, hent1, hfeeds1⟩

lemma listSetEq_refl (a : List Nat) : listSetEq a a = true :=
  (listSetEq_iff a a).mpr (fun _ => Iff.rfl)

lemma rowid_inj (db : DB) (hinv : SyncInv db) :
    ∀ row₁ ∈ db.search, ∀ row₂ ∈ db.search, row₁.rowid = row₂.rowid → row₁ = row₂ :=
  fun _ h₁ _ h₂ h => List.inj_on_of_nodup_map hinv.rowidsNodup h₁ h₂ h

/-- A successful write transaction preserves the invariant. -/
lemma inv_rewriteEntry (db : DB) (hinv : Inv db) (g : Snapshot)
    (hchk : writeChecksSync db g = true) : Inv (rewriteEntry db g) := by
  revert hchk
  rw [writeChecksSync]
  cases hl : lookupSync db.esss g._id g._feed with
  | none =>
    intro h
    exact absurd h (by simp)
  | some r0 =>
    intro hchk
    obtain ⟨hup, hseteq⟩ := Bool.and_eq_true_iff.mp hchk
    have hr0mem : r0 ∈ db.esss := List.mem_of_find?_eq_some hl
    have hr0pred := List.find?_some hl
    have hr0key : r0.id = g._id ∧ r0.feed = g._feed := cond_key_eq hr0pred
    have hset : ∀ x, x ∈ r0.es_rowids ↔ x ∈ g._es_rowids :=
      (listSetEq_iff _ _).mp hseteq
    have hinjKey : ∀ r₁ ∈ db.esss, ∀ r₂ ∈ db.esss,
        (r₁.id, r₁.feed) = (r₂.id, r₂.feed) → r₁ = r₂ :=
      List.inj_on_of_nodup_map hinv.esssKeysNodup
    have hcondR0 : (r0.id == g._id && r0.feed == g._feed) = true := by
      simp [hr0key.1, hr0key.2]
    have hcondEqR0 : ∀ r ∈ db.esss, (r.id == g._id && r.feed == g._feed) = true →
        r = r0 := by
      intro r hr hc
      have hk := cond_key_eq hc
      refine hinjKey r hr r0 hr0mem ?_
      rw [Prod.mk.injEq, hk.1, hk.2, hr0key.1, hr0key.2]
      exact ⟨rfl, rfl⟩
    have hgeNew : ∀ row ∈ mkIndexRows g db.nextRowid,
        db.nextRowid ≤ row.rowid ∧ row.rowid < db.nextRowid + g.fragments.length :=
      fun row hrow => mkIndexRows_rowid_lt g db.nextRowid row hrow
    have hsurvives : ∀ r ∈ db.esss, (r.id == g._id && r.feed == g._feed) = false →
        ∀ rid ∈ r.es_rowids, (g._es_rowids.contains rid) = false := by
      intro r hr hc rid hrid
      cases hcb : g._es_rowids.contains rid with
      | false => rfl
      | true =>
        have hmem : rid ∈ g._es_rowids := List.mem_of_elem_eq_true hcb
        have hmem0 : rid ∈ r0.es_rowids := (hset rid).mpr hmem
        have heq : r = r0 := hinv.ownDisj r hr r0 hr0mem rid hrid hmem0
        rw [heq, hcondR0] at hc
        exact absurd hc (by simp)
    refine ⟨⟨?_, ?_, ?_, ?_, ?_, ?_, ?_⟩, ?_, ?_, ?_⟩
    · -- record keys unchanged
      show ((db.esss.map (fun s =>
        if s.id == g._id && s.feed == g._feed then
          { s with to_update := false, es_rowids := (mkIndexRows g db.nextRowid).map IndexRow.rowid }
        else s)).map (fun r => (r.id, r.feed))).Nodup
      rw [keys_map_cond db.esss (fun r => (r.id, r.feed))
        (fun s => s.id == g._id && s.feed == g._feed)
        (fun s => { s with to_update := false, es_rowids := (mkIndexRows g db.nextRowid).map IndexRow.rowid })
        (fun x _ => rfl)]
      exact hinv.esssKeysNodup
    · -- rowids unique
      show ((db.search.filter _ ++ mkIndexRows g db.nextRowid).map IndexRow.rowid).Nodup
      rw [List.map_append, List.nodup_append]
      refine ⟨List.Nodup.sublist ((List.filter_sublist _).map _) hinv.rowidsNodup,
        mkIndexRows_rowids_nodup g db.nextRowid, ?_⟩
      intro a ha1 ha2
      obtain ⟨row1, hrow1, rfl⟩ := List.mem_map.mp ha1
      obtain ⟨row2, hrow2, heq2⟩ := List.mem_map.mp ha2
      have h1 := hinv.rowidLt row1 (List.mem_of_mem_filter hrow1)
      have h2 := (hgeNew row2 hrow2).1
      omega
    · -- per-record rowid lists distinct
      intro r' hr'
      obtain ⟨r, hr, rfl⟩ := List.mem_map.mp hr'
      by_cases hc : (r.id == g._id && r.feed == g._feed) = true
      · rw [if_pos hc]
        exact mkIndexRows_rowids_nodup g db.nextRowid
      · rw [if_neg hc]
        exact hinv.ownNodup r hr
    · -- ownership disjoint
      intro r1' h1 r2' h2 rid h3 h4
      obtain ⟨r1, hr1, rfl⟩ := List.mem_map.mp h1
      obtain ⟨r2, hr2, rfl⟩ := List.mem_map.mp h2
      by_cases hc1 : (r1.id == g._id && r1.feed == g._feed) = true <;>
        by_cases hc2 : (r2.id == g._id && r2.feed == g._feed) = true
      · rw [hcondEqR0 r1 hr1 hc1, hcondEqR0 r2 hr2 hc2]
      · rw [if_pos hc1] at h3
        rw [if_neg hc2] at h4
        obtain ⟨row1, hrown1, heq1⟩ := List.mem_map.mp h3
        obtain ⟨row2, hrowm2, heq2, _, _⟩ := hinv.ownExists r2 hr2 rid h4
        have hge := (hgeNew row1 hrown1).1
        have hlt := hinv.rowidLt row2 hrowm2
        omega
      · rw [if_neg hc1] at h3
        rw [if_pos hc2] at h4
        obtain ⟨row2, hrown2, heq2⟩ := List.mem_map.mp h4
        obtain ⟨row1, hrowm1, heq1, _, _⟩ := hinv.ownExists r1 hr1 rid h3
        have hge := (hgeNew row2 hrown2).1
        have hlt := hinv.rowidLt row1 hrowm1
        omega
      · rw [if_neg hc1] at h3
        rw [if_neg hc2] at h4
        rw [hinv.ownDisj r1 hr1 r2 hr2 rid h3 h4]
    · -- owned rowids are backed by rows with matching back-pointers
      intro r' hr' rid hrid
      obtain ⟨r, hr, rfl⟩ := List.mem_map.mp hr'
      by_cases hc : (r.id == g._id && r.feed == g._feed) = true
      · rw [if_pos hc] at hrid ⊢
        obtain ⟨row, hrow, heq⟩ := List.mem_map.mp hrid
        have hfields := mkIndexRows_fields g db.nextRowid row hrow
        refine ⟨row, List.mem_append_right _ hrow, heq, ?_, ?_⟩
        · rw [hfields.1, (cond_key_eq hc).1]
        · rw [hfields.2, (cond_key_eq hc).2]
      · rw [if_neg hc] at hrid ⊢
        obtain ⟨row, hrowm, heq, hid, hfeed⟩ := hinv.ownExists r hr rid hrid
        refine ⟨row, List.mem_append_left _ (List.mem_filter.mpr ⟨hrowm, ?_⟩),
          heq, hid, hfeed⟩
        rw [heq, hsurvives r hr (by
          cases hb : (r.id == g._id && r.feed == g._feed)
          · rfl
          · exact absurd hb hc) rid hrid]
        rfl
    · -- every row is owned
      intro row hrow
      rcases List.mem_append.mp hrow with hrow1 | hrow2
      · obtain ⟨hrowdb, hcnt⟩ := List.mem_filter.mp hrow1
        obtain ⟨r, hr, hown⟩ := hinv.rowsOwned row hrowdb
        have hcfalse : (r.id == g._id && r.feed == g._feed) = false := by
          cases hb : (r.id == g._id && r.feed == g._feed) with
          | false => rfl
          | true =>
            have heq : r = r0 := hcondEqR0 r hr hb
            subst heq
            have hmem : row.rowid ∈ g._es_rowids := (hset row.rowid).mp hown
            have hcontains : g._es_rowids.contains row.rowid = true :=
              List.elem_eq_true_of_mem hmem
            rw [hcontains] at hcnt
            exact absurd hcnt (by simp)
        have hmodmem := (mem_map_update db.esss
          (fun s => { s with to_update := false, es_rowids := (mkIndexRows g db.nextRowid).map IndexRow.rowid })
          (fun s => s.id == g._id && s.feed == g._feed) r hr).2 hcfalse
        exact ⟨r, hmodmem, hown⟩
      · have hmodmem := (mem_map_update db.esss
          (fun s => { s with to_update := false, es_rowids := (mkIndexRows g db.nextRowid).map IndexRow.rowid })
          (fun s => s.id == g._id && s.feed == g._feed) r0 hr0mem).1 hcondR0
        exact ⟨_, hmodmem, List.mem_map_of_mem _ hrow2⟩
    · -- all rowids below the counter
      intro row hrow
      rcases List.mem_append.mp hrow with hrow1 | hrow2
      · have := hinv.rowidLt row (List.mem_of_mem_filter hrow1)
        show row.rowid < db.nextRowid + g.fragments.length
        omega
      · exact (hgeNew row hrow2).2
    · exact hinv.entriesKeysNodup
    · -- liveEntry
      intro r' hr' hdel
      obtain ⟨r, hr, rfl⟩ := List.mem_map.mp hr'
      by_cases hc : (r.id == g._id && r.feed == g._feed) = true
      · rw [if_pos hc] at hdel ⊢
        exact hinv.liveEntry r hr hdel
      · rw [if_neg hc] at hdel ⊢
        exact hinv.liveEntry r hr hdel
    · exact hinv.feedCover

lemma processGroup_entries (db : DB) (g : Snapshot) :
    (processGroup db g).entries = db.entries := by
  rw [processGroup]
  by_cases h1 : writeChecksSync db g = true
  · rw [if_pos h1]
    by_cases h2 : writeChecksEntry db g = true
    · rw [if_pos h2]
      rfl
    · rw [if_neg h2]
  · rw [if_neg h1]

lemma processGroup_feeds (db : DB) (g : Snapshot) :
    (processGroup db g).feeds = db.feeds := by
  rw [processGroup]
  by_cases h1 : writeChecksSync db g = true
  · rw [if_pos h1]
    by_cases h2 : writeChecksEntry db g = true
    · rw [if_pos h2]
      rfl
    · rw [if_neg h2]
  · rw [if_neg h1]

lemma inv_processGroup (db : DB) (hinv : Inv db) (g : Snapshot) :
    Inv (processGroup db g) := by
  rw [processGroup]
  by_cases h1 : writeChecksSync db g = true
  · rw [if_pos h1]
    by_cases h2 : writeChecksEntry db g = true
    · rw [if_pos h2]
      exact inv_rewriteEntry db hinv g h1
    · rw [if_neg h2]
      exact hinv
  · rw [if_neg h1]
    exact hinv

lemma processGroup_no_delete (db : DB) (g : Snapshot)
    (h : ∀ r ∈ db.esss, r.to_delete = false) :
    ∀ r ∈ (processGroup db g).esss, r.to_delete = false := by
  rw [processGroup]
  by_cases h1 : writeChecksSync db g = true
  · rw [if_pos h1]
    by_cases h2 : writeChecksEntry db g = true
    · rw [if_pos h2]
      intro r' hr'
      obtain ⟨r, hr, rfl⟩ := List.mem_map.mp hr'
      by_cases hc : (r.id == g._id && r.feed == g._feed) = true
      · rw [if_pos hc]
        exact h r hr
      · rw [if_neg hc]
        exact h r hr
    · rw [if_neg h2]
      exact h
  · rw [if_neg h1]
    exact h

lemma lookupSync_eq_self (esss : List SyncState)
    (hnodup : (esss.map (fun r => (r.id, r.feed))).Nodup)
    (r : SyncState) (hr : r ∈ esss) : lookupSync esss r.id r.feed = some r := by
  cases hf : lookupSync esss r.id r.feed with
  | none =>
    exfalso
    rw [lookupSync] at hf
    have hnone := List.find?_eq_none.mp hf r hr
    simp at hnone
  | some r' =>
    rw [lookupSync] at hf
    have hr'mem : r' ∈ esss := List.mem_of_find?_eq_some hf
    have hpred := List.find?_some hf
    have hk := cond_key_eq hpred
    have hinj := List.inj_on_of_nodup_map hnodup
    have heq : r' = r :=
      hinj hr'mem hr (by rw [Prod.mk.injEq, hk.1, hk.2]; exact ⟨rfl, rfl⟩)
    rw [heq]

/-- Unpacking the phase-1 join: a row survives the `filterMap` exactly when
the entry and feed lookups both succeed. -/
lemma insertSelect_match_spec (norm : String → String) (db : DB) (r : SyncState)
    (g : Snapshot)
    (hfr : (match lookupEntry db r.id r.feed, lookupFeed db r.feed with
      | some e, some f => some (mkSnapshot norm r e f)
      | _, _ => none) = some g) :
    ∃ e f, lookupEntry db r.id r.feed = some e ∧ lookupFeed db r.feed = some f ∧
      g = mkSnapshot norm r e f ∧ e.id = r.id ∧ e.feed = r.feed := by
  revert hfr
  cases hle : lookupEntry db r.id r.feed with
  | none =>
    intro hfr
    exact absurd hfr (by simp)
  | some e =>
    cases hlf : lookupFeed db r.feed with
    | none =>
      intro hfr
      exact absurd hfr (by simp)
    | some f =>
      intro hfr
      have hg : g = mkSnapshot norm r e f := (Option.some.inj hfr).symm
      have hle' : db.entries.find? (fun x => x.id == r.id && x.feed == r.feed) =
          some e := hle
      have hpred := List.find?_some hle'
      have hk := entry_cond_key_eq hpred
      exact ⟨e, f, rfl, rfl, hg, hk.1, hk.2⟩

/-- Every selected snapshot passes both optimistic re-checks immediately
after phase 1, and its key data comes from a flagged record. -/
lemma insertSelect_spec (norm : String → String) (db : DB) (cs : Nat)
    (hnodup : (db.esss.map (fun r => (r.id, r.feed))).Nodup) :
    ∀ g ∈ insertSelect norm db cs,
      ∃ r, lookupSync db.esss g._id g._feed = some r ∧ r.to_update = true ∧
        r.es_rowids = g._es_rowids ∧
        ∃ e, lookupEntry db g._id g._feed = some e ∧
          e.last_updated = g._last_updated := by
  intro g hg
  rw [insertSelect] at hg
  have hg2 := List.mem_of_mem_take hg
  obtain ⟨r, hrf, hfr⟩ := List.mem_filterMap.mp hg2
  obtain ⟨e, f, hle, hlf, hgeq, heid, hefeed⟩ :=
    insertSelect_match_spec norm db r g hfr
  subst hgeq
  have hrmem : r ∈ db.esss := List.mem_of_mem_filter hrf
  have hrup : r.to_update = true := List.of_mem_filter hrf
  refine ⟨r, ?_, hrup, rfl, e, ?_, rfl⟩
  · show lookupSync db.esss e.id e.feed = some r
    rw [heid, hefeed]
    exact lookupSync_eq_self db.esss hnodup r hrmem
  · show lookupEntry db e.id e.feed = some e
    rw [heid, hefeed]
    exact hle

/-- The selected snapshots carry pairwise distinct `(id, feed)` keys. -/
lemma insertSelect_keys_nodup (norm : String → String) (db : DB) (cs : Nat)
    (hnodup : (db.esss.map (fun r => (r.id, r.feed))).Nodup) :
    ((insertSelect norm db cs).map (fun g => (g._id, g._feed))).Nodup := by
  rw [insertSelect, List.map_take]
  refine List.Nodup.sublist (List.take_sublist _ _) ?_
  have hcompat : ∀ (r : SyncState) (g : Snapshot),
      (match lookupEntry db r.id r.feed, lookupFeed db r.feed with
        | some e, some f => some (mkSnapshot norm r e f)
        | _, _ => none) = some g →
      (g._id, g._feed) = (r.id, r.feed) := by
    intro r g hfr
    obtain ⟨e, f, _, _, hgeq, heid, hefeed⟩ := insertSelect_match_spec norm db r g hfr
    subst hgeq
    show (e.id, e.feed) = (r.id, r.feed)
    rw [heid, hefeed]
  have h1 := map_filterMap_sublist
    (fun r => match lookupEntry db r.id r.feed, lookupFeed db r.feed with
      | some e, some f => some (mkSnapshot norm r e f)
      | _, _ => none)
    (fun r : SyncState => (r.id, r.feed)) (fun g : Snapshot => (g._id, g._feed))
    (fun r g h => hcompat r g h) (db.esss.filter (fun r => r.to_update))
  have h2 : ((db.esss.filter (fun r => r.to_update)).map
      (fun r : SyncState => (r.id, r.feed))).Sublist
      (db.esss.map (fun r : SyncState => (r.id, r.feed))) :=
    (List.filter_sublist _).map _
  exact List.Nodup.sublist (h1.trans h2) hnodup

lemma fold_processGroup_no_delete (gs : List Snapshot) : ∀ (db : DB),
    (∀ r ∈ db.esss, r.to_delete = false) →
    ∀ r ∈ (gs.foldl processGroup db).esss, r.to_delete = false := by
  induction gs with
  | nil =>
    intro db h
    exact h
  | cons g gs ih =>
    intro db h
    exact ih (processGroup db g) (processGroup_no_delete db g h)

/-- Folding the write phase over snapshots with distinct keys that all pass
their re-checks preserves the invariant, leaves entries/feeds unchanged, and
clears exactly the selected records' `to_update` flags. -/
lemma fold_processGroup (gs : List Snapshot) : ∀ (db : DB), Inv db →
    (gs.map (fun g => (g._id, g._feed))).Nodup →
    (∀ g ∈ gs, ∃ r, lookupSync db.esss g._id g._feed = some r ∧
      r.to_update = true ∧ r.es_rowids = g._es_rowids ∧
      ∃ e, lookupEntry db g._id g._feed = some e ∧
        e.last_updated = g._last_updated) →
    Inv (gs.foldl processGroup db) ∧
    (gs.foldl processGroup db).entries = db.entries ∧
    (gs.foldl processGroup db).feeds = db.feeds ∧
    (gs.foldl processGroup db).esss.map (fun r => ((r.id, r.feed), r.to_update)) =
      db.esss.map (fun r => ((r.id, r.feed),
        if gs.any (fun g => r.id == g._id && r.feed == g._feed) then false
        else r.to_update)) := by
  induction gs with
  | nil =>
    intro db hinv _ _
    refine ⟨hinv, rfl, rfl, ?_⟩
    simp
  | cons g gs ih =>
    intro db hinv hnodup hok
    obtain ⟨r0, hl, hup, hes, e0, hle, hlu⟩ := hok g (List.mem_cons_self g gs)
    rw [List.map_cons, List.nodup_cons] at hnodup
    obtain ⟨hhead, htail⟩ := hnodup
    have hchkS : writeChecksSync db g = true := by
      rw [writeChecksSync, hl]
      show (r0.to_update && listSetEq r0.es_rowids g._es_rowids) = true
      rw [hup, hes, listSetEq_refl]
      rfl
    have hchkE : writeChecksEntry db g = true := by
      rw [writeChecksEntry, hle]
      show (e0.last_updated == g._last_updated) = true
      rw [hlu]
      simp
    have hstep : processGroup db g = rewriteEntry db g := by
      rw [processGroup, if_pos hchkS, if_pos hchkE]
    have hinv1 : Inv (rewriteEntry db g) := inv_rewriteEntry db hinv g hchkS
    have hesss1 : (rewriteEntry db g).esss = db.esss.map (fun s =>
      if s.id == g._id && s.feed == g._feed then
        { s with to_update := false, es_rowids := (mkIndexRows g db.nextRowid).map IndexRow.rowid }
      else s) := rfl
    have hok1 : ∀ g' ∈ gs, ∃ r, lookupSync (rewriteEntry db g).esss g'._id g'._feed = some r ∧
        r.to_update = true ∧ r.es_rowids = g'._es_rowids ∧
        ∃ e, lookupEntry (rewriteEntry db g) g'._id g'._feed = some e ∧
          e.last_updated = g'._last_updated := by
      intro g' hg'
      obtain ⟨r', hl', hup', hes', e', hle', hlu'⟩ := hok g' (List.mem_cons_of_mem g hg')
      have hkne : ((g'._id, g'._feed) : String × String) ≠ (g._id, g._feed) := by
        intro heq
        exact hhead (heq ▸ List.mem_map_of_mem (fun x => (x._id, x._feed)) hg')
      have hr'pred := List.find?_some hl'
      have hr'k := cond_key_eq hr'pred
      have hcfalse : (r'.id == g._id && r'.feed == g._feed) = false := by
        cases hb : (r'.id == g._id && r'.feed == g._feed) with
        | false => rfl
        | true =>
          have hbk := cond_key_eq hb
          exact absurd (by rw [← hr'k.1, ← hr'k.2, hbk.1, hbk.2] :
            ((g'._id, g'._feed) : String × String) = (g._id, g._feed)) hkne
      have hmk := lookupSync_map_keyed db.esss g._id g._feed
        (fun s => { s with to_update := false, es_rowids := (mkIndexRows g db.nextRowid).map IndexRow.rowid })
        (fun r => ⟨rfl, rfl⟩) g'._id g'._feed
      rw [hl'] at hmk
      rw [Option.map_some'] at hmk
      rw [if_neg (by rw [hcfalse]; exact Bool.false_ne_true)] at hmk
      refine ⟨r', ?_, hup', hes', e', hle', hlu'⟩
      rw [hesss1]
      exact hmk
    obtain ⟨hinvf, hentf, hfeedf, hprojf⟩ := ih (rewriteEntry db g) hinv1 htail hok1
    rw [List.foldl_cons, hstep]
    refine ⟨hinvf, hentf, hfeedf, ?_⟩
    rw [hprojf, hesss1, List.map_map]
    refine List.map_congr_left ?_
    intro r _
    show ((fun r => ((r.id, r.feed),
        if gs.any (fun g' => r.id == g'._id && r.feed == g'._feed) then false
        else r.to_update))
      (if r.id == g._id && r.feed == g._feed then
        { r with to_update := false, es_rowids := (mkIndexRows g db.nextRowid).map IndexRow.rowid }
      else r)) = ((r.id, r.feed),
        if (g :: gs).any (fun g' => r.id == g'._id && r.feed == g'._feed) then false
        else r.to_update)
    rw [List.any_cons]
    by_cases hc : (r.id == g._id && r.feed == g._feed) = true
    · rw [if_pos hc, hc]
      simp
    · have hcf : (r.id == g._id && r.feed == g._feed) = false := by
        cases hb : (r.id == g._id && r.feed == g._feed)
        · rfl
        · exact absurd hb hc
      rw [if_neg hc, hcf]
      rw [Bool.false_or]

/-- One insertion chunk preserves the invariant and `to_delete`-freeness;
if it reports done the flagged set was already empty (state unchanged),
otherwise it strictly decreases the number of `to_update` flags. -/
lemma inv_insert_chunk (norm : String → String) (db : DB) (cs : Nat)
    (hinv : Inv db) (hnd : ∀ r ∈ db.esss, r.to_delete = false) :
    Inv (insert_into_search_one_chunk norm db cs).1 ∧
    (∀ r ∈ (insert_into_search_one_chunk norm db cs).1.esss, r.to_delete = false) ∧
    ((insert_into_search_one_chunk norm db cs).2 = false →
      (∀ r ∈ db.esss, r.to_update = false) ∧
      (insert_into_search_one_chunk norm db cs).1 = db) ∧
    ((insert_into_search_one_chunk norm db cs).2 = true →
      (insert_into_search_one_chunk norm db cs).1.esss.countP (fun r => r.to_update) <
        db.esss.countP (fun r => r.to_update)) := by
  by_cases hemp : (insertSelect norm db cs).isEmpty = true
  · have hchunk : insert_into_search_one_chunk norm db cs = (db, false) := by
      rw [insert_into_search_one_chunk, if_pos hemp]
    have hquiet : ∀ r ∈ db.esss, r.to_update = false := by
      have hsome : ∀ r ∈ db.esss.filter (fun r => r.to_update),
          ((match lookupEntry db r.id r.feed, lookupFeed db r.feed with
            | some e, some f => some (mkSnapshot norm r e f)
            | _, _ => none) : Option Snapshot).isSome = true := by
        intro r hrf
        have hr := List.mem_of_mem_filter hrf
        have hdel := hnd r hr
        obtain ⟨e, he, heid, hefeed⟩ := hinv.liveEntry r hr hdel
        have hlex : ∃ e', lookupEntry db r.id r.feed = some e' := by
          cases hle0 : lookupEntry db r.id r.feed with
          | none =>
            exfalso
            rw [lookupEntry] at hle0
            have hnone := List.find?_eq_none.mp hle0 e he
            exact hnone (by rw [heid, hefeed]; simp)
          | some e' => exact ⟨e', rfl⟩
        obtain ⟨e', hle⟩ := hlex
        have hle' : db.entries.find? (fun x => x.id == r.id && x.feed == r.feed) =
            some e' := hle
        have hpred := List.find?_some hle'
        have hek := entry_cond_key_eq hpred
        obtain ⟨f, hf, hfurl⟩ := hinv.feedCover e' (List.mem_of_find?_eq_some hle')
        have hlfx : ∃ f', lookupFeed db r.feed = some f' := by
          cases hlf0 : lookupFeed db r.feed with
          | none =>
            exfalso
            rw [lookupFeed] at hlf0
            have hnone := List.find?_eq_none.mp hlf0 f hf
            exact hnone (by rw [hfurl, hek.2]; simp)
          | some f' => exact ⟨f', rfl⟩
        obtain ⟨f', hlf⟩ := hlfx
        rw [hle, hlf]
        rfl
      have hlen := length_filterMap_of_isSome
        (fun r => match lookupEntry db r.id r.feed, lookupFeed db r.feed with
          | some e, some f => some (mkSnapshot norm r e f)
          | _, _ => none)
        (db.esss.filter (fun r => r.to_update)) hsome
      have hnil : insertSelect norm db cs = [] := List.isEmpty_iff.mp hemp
      rw [insertSelect] at hnil
      have hlen0 := congrArg List.length hnil
      rw [List.length_take] at hlen0
      have heff := effChunk_pos cs
      have hflen0 : (db.esss.filter (fun r => r.to_update)).length = 0 := by
        rw [← hlen]
        simp only [List.length_nil] at hlen0
        omega
      have hfnil := List.length_eq_zero.mp hflen0
      have hfall := List.filter_eq_nil_iff.mp hfnil
      intro r hr
      cases hb : r.to_update with
      | false => rfl
      | true => exact absurd hb (hfall r hr)
    refine ⟨?_, ?_, ?_, ?_⟩
    · rw [hchunk]
      exact hinv
    · rw [hchunk]
      exact hnd
    · intro _
      rw [hchunk]
      exact ⟨hquiet, rfl⟩
    · intro h
      rw [hchunk] at h
      simp at h
  · have hne : insertSelect norm db cs ≠ [] :=
      fun h => hemp (List.isEmpty_iff.mpr h)
    have hchunk : insert_into_search_one_chunk norm db cs =
        ((insertSelect norm db cs).foldl processGroup db, true) := by
      rw [insert_into_search_one_chunk, if_neg hemp]
    have hkeys := insertSelect_keys_nodup norm db cs hinv.esssKeysNodup
    have hok := insertSelect_spec norm db cs hinv.esssKeysNodup
    obtain ⟨hinvf, hentf, hfeedf, hprojf⟩ :=
      fold_processGroup (insertSelect norm db cs) db hinv hkeys hok
    refine ⟨?_, ?_, ?_, ?_⟩
    · rw [hchunk]
      exact hinvf
    · rw [hchunk]
      exact fold_processGroup_no_delete (insertSelect norm db cs) db hnd
    · intro h
      rw [hchunk] at h
      simp at h
    · intro _
      rw [hchunk]
      show ((insertSelect norm db cs).foldl processGroup db).esss.countP
          (fun r => r.to_update) < db.esss.countP (fun r => r.to_update)
      have h1 : ((insertSelect norm db cs).foldl processGroup db).esss.countP
          (fun r => r.to_update) =
          (((insertSelect norm db cs).foldl processGroup db).esss.map
            (fun r => ((r.id, r.feed), r.to_update))).countP
            (fun x => x.2) := by
        rw [List.countP_map]
        rfl
      rw [h1, hprojf, List.countP_map]
      have h2 : ((fun x : (String × String) × Bool => x.2) ∘
          (fun r : SyncState => ((r.id, r.feed),
            if (insertSelect norm db cs).any
              (fun g => r.id == g._id && r.feed == g._feed) then false
            else r.to_update))) =
          (fun r : SyncState =>
            if (insertSelect norm db cs).any
              (fun g => r.id == g._id && r.feed == g._feed) then false
            else r.to_update) := rfl
      rw [h2]
      obtain ⟨g0, hg0⟩ := List.exists_mem_of_ne_nil (insertSelect norm db cs) hne
      obtain ⟨r0, hl0, hup0, -, -⟩ := hok g0 hg0
      have hl0' : db.esss.find? (fun r => r.id == g0._id && r.feed == g0._feed) =
          some r0 := hl0
      have hr0mem := List.mem_of_find?_eq_some hl0'
      have hpred0 := List.find?_some hl0'
      have hk0 := cond_key_eq hpred0
      have hany : (insertSelect norm db cs).any
          (fun g => r0.id == g._id && r0.feed == g._feed) = true :=
        List.any_eq_true.mpr ⟨g0, hg0, by rw [hk0.1, hk0.2]; simp⟩
      refine countP_pointwise_lt db.esss (fun r => r.to_update) _ ?_ r0 hr0mem hup0 ?_
      · intro x _ hq
        by_cases hax : ((insertSelect norm db cs).any
            (fun g => x.id == g._id && x.feed == g._feed)) = true
        · rw [if_pos hax] at hq
          exact absurd hq (by simp)
        · rwa [if_neg hax] at hq
      · rw [if_pos hany]

lemma insert_into_search_succ (norm : String → String) (cs fuel : Nat) (db : DB) :
    insert_into_search norm cs (fuel + 1) db =
      if (insert_into_search_one_chunk norm db cs).2 then
        insert_into_search norm cs fuel (insert_into_search_one_chunk norm db cs).1
      else (insert_into_search_one_chunk norm db cs).1 :=
  rfl

/-- With fuel exceeding the number of `to_update` flags, the insertion loop
reaches quiescence while preserving the invariant. -/
lemma insert_drain (norm : String → String) (cs : Nat) : ∀ (fuel : Nat) (db : DB),
    Inv db → (∀ r ∈ db.esss, r.to_delete = false) →
    db.esss.countP (fun r => r.to_update) < fuel →
    Inv (insert_into_search norm cs fuel db) ∧
    ∀ r ∈ (insert_into_search norm cs fuel db).esss,
      r.to_update = false ∧ r.to_delete = false := by
  intro fuel
  induction fuel with
  | zero =>
    intro db _ _ hcount
    omega
  | succ fuel ih =>
    intro db hinv hnd hcount
    obtain ⟨hinv1, hnd1, hdone, hcont⟩ := inv_insert_chunk norm db cs hinv hnd
    rw [insert_into_search_succ]
    cases hb : (insert_into_search_one_chunk norm db cs).2 with
    | false =>
      rw [if_neg Bool.false_ne_true]
      obtain ⟨hquiet, heq⟩ := hdone hb
      rw [heq]
      exact ⟨hinv, fun r hr => ⟨hquiet r hr, hnd r hr⟩⟩
    | true =>
      rw [if_pos rfl]
      have hlt := hcont hb
      exact ih (insert_into_search_one_chunk norm db cs).1 hinv1 hnd1 (by omega)

/-- The structural invariant pins down the index exactly: each record's
`es_rowids` is set-equal to the rowids of the IndexRows whose back-pointers
match it, and every IndexRow is owned by its record. -/
lemma syncInv_consistency (db : DB) (hinv : SyncInv db) :
    (∀ r ∈ db.esss, listSetEq r.es_rowids (matchingRowids db r) = true) ∧
    (∀ row ∈ db.search, ∃ r ∈ db.esss,
      row._id = r.id ∧ row._feed = r.feed ∧ row.rowid ∈ r.es_rowids) := by
  have hinj := List.inj_on_of_nodup_map hinv.esssKeysNodup
  constructor
  · intro r hr
    refine (listSetEq_iff _ _).mpr ?_
    intro rid
    constructor
    · intro hrid
      obtain ⟨row, hrow, hridq, hid, hfeed⟩ := hinv.ownExists r hr rid hrid
      rw [matchingRowids]
      refine List.mem_map.mpr ⟨row, List.mem_filter.mpr ⟨hrow, ?_⟩, hridq⟩
      rw [hid, hfeed]
      simp
    · intro hrid
      rw [matchingRowids] at hrid
      obtain ⟨row, hrowf, hridq⟩ := List.mem_map.mp hrid
      obtain ⟨hrow, hpredq⟩ := List.mem_filter.mp hrowf
      have hkeys : row._id = r.id ∧ row._feed = r.feed := by
        rcases Bool.and_eq_true_iff.mp hpredq with ⟨h1, h2⟩
        exact ⟨eq_of_beq h1, eq_of_beq h2⟩
      obtain ⟨r', hr', hown'⟩ := hinv.rowsOwned row hrow
      obtain ⟨row2, hrow2, hrid2, hid2, hfeed2⟩ :=
        hinv.ownExists r' hr' row.rowid hown'
      have hroweq : row2 = row := rowid_inj db hinv row2 hrow2 row hrow hrid2
      subst hroweq
      have hreq : r' = r := hinj hr' hr (by
        rw [Prod.mk.injEq, ← hid2, ← hfeed2, hkeys.1, hkeys.2]
        exact ⟨rfl, rfl⟩)
      subst hreq
      rw [hridq] at hown'
      exact hown'
  · intro row hrow
    obtain ⟨r, hr, hown⟩ := hinv.rowsOwned row hrow
    obtain ⟨row2, hrow2, hrid2, hid2, hfeed2⟩ :=
      hinv.ownExists r hr row.rowid hown
    have hroweq : row2 = row := rowid_inj db hinv row2 hrow2 row hrow hrid2
    subst hroweq
    exact ⟨r, hr, hid2, hfeed2, hown⟩

/-- C1: after any sequence of entry inserts, updates, and deletes followed by
running `update()` until no `to_update` or `to_delete` flags remain, every
SyncStateRecord's `es_rowids` set exactly equals the set of IndexRows whose
back-pointers `(_id, _feed)` match that entry — no orphan IndexRows (every row
is owned by the matching record) and no duplicates (rowids are globally and
per-record distinct). -/
theorem entry_index_consistency (feeds : List Feed) (ops : List Op)
    (norm : String → String) (cs : Nat)
    (hops : ∀ op ∈ ops, opOk feeds op = true) :
    (∀ r ∈ (searchUpdate norm cs (applyOps (initDB feeds) ops)).esss,
      r.to_update = false ∧ r.to_delete = false) ∧
    (∀ r ∈ (searchUpdate norm cs (applyOps (initDB feeds) ops)).esss,
      listSetEq r.es_rowids
        (matchingRowids (searchUpdate norm cs (applyOps (initDB feeds) ops)) r) =
        true) ∧
    (∀ row ∈ (searchUpdate norm cs (applyOps (initDB feeds) ops)).search,
      ∃ r ∈ (searchUpdate norm cs (applyOps (initDB feeds) ops)).esss,
        row._id = r.id ∧ row._feed = r.feed ∧ row.rowid ∈ r.es_rowids) ∧
    ((searchUpdate norm cs (applyOps (initDB feeds) ops)).search.map
      IndexRow.rowid).Nodup ∧
    (∀ r ∈ (searchUpdate norm cs (applyOps (initDB feeds) ops)).esss,
      r.es_rowids.Nodup) := by
  have h0 := inv_applyOps ops (initDB feeds) (inv_init feeds) hops
  have hinv0 : Inv (applyOps (initDB feeds) ops) := h0.1
  have hinv1 := (inv_delete_drain cs ((applyOps (initDB feeds) ops).esss.length + 1)
    (applyOps (initDB feeds) ops) hinv0).1
  have hnd1 := delete_drain_quiesces cs ((applyOps (initDB feeds) ops).esss.length + 1)
    (applyOps (initDB feeds) ops) (Nat.lt_succ_self _)
  have hcnt : (delete_from_search cs ((applyOps (initDB feeds) ops).esss.length + 1)
      (applyOps (initDB feeds) ops)).esss.countP (fun r => r.to_update) <
      (delete_from_search cs ((applyOps (initDB feeds) ops).esss.length + 1)
        (applyOps (initDB feeds) ops)).esss.length + 1 :=
    Nat.lt_succ_of_le (List.countP_le_length _)
  obtain ⟨hinvF, hquiF⟩ := insert_drain norm cs
    ((delete_from_search cs ((applyOps (initDB feeds) ops).esss.length + 1)
      (applyOps (initDB feeds) ops)).esss.length + 1)
    (delete_from_search cs ((applyOps (initDB feeds) ops).esss.length + 1)
      (applyOps (initDB feeds) ops)) hinv1 hnd1 hcnt
  obtain ⟨hmatch, hown⟩ := syncInv_consistency _ hinvF.toSyncInv
  exact ⟨hquiF, hmatch, hown, hinvF.rowidsNodup, hinvF.ownNodup⟩

/-- Concrete feed table for the C1 witness. -/
def c1feeds : List Feed := [⟨"f", some "Feed", none⟩]

/-- Concrete op sequence for the C1 witness: two inserts, one update, one
delete. -/
def c1ops : List Op :=
  [.insert ⟨"e1", "f", 1, some "hello", some "sum",
    [⟨some "body", some "text/html"⟩]⟩,
   .insert ⟨"e2", "f", 1, none, none, []⟩,
   .update "e1" "f" (some "hello2") (some "sum")
    [⟨some "body", some "text/html"⟩] 2,
   .delete "e2" "f"]

theorem entry_index_consistency_witness :
    (∀ op ∈ c1ops, opOk c1feeds op = true) ∧
    ((∀ r ∈ (searchUpdate id 2 (applyOps (initDB c1feeds) c1ops)).esss,
      r.to_update = false ∧ r.to_delete = false) ∧
    (∀ r ∈ (searchUpdate id 2 (applyOps (initDB c1feeds) c1ops)).esss,
      listSetEq r.es_rowids
        (matchingRowids (searchUpdate id 2 (applyOps (initDB c1feeds) c1ops)) r) =
        true) ∧
    (∀ row ∈ (searchUpdate id 2 (applyOps (initDB c1feeds) c1ops)).search,
      ∃ r ∈ (searchUpdate id 2 (applyOps (initDB c1feeds) c1ops)).esss,
        row._id = r.id ∧ row._feed = r.feed ∧ row.rowid ∈ r.es_rowids) ∧
    ((searchUpdate id 2 (applyOps (initDB c1feeds) c1ops)).search.map
      IndexRow.rowid).Nodup ∧
    (∀ r ∈ (searchUpdate id 2 (applyOps (initDB c1feeds) c1ops)).esss,
      r.es_rowids.Nodup)) :=
  ⟨by decide, entry_index_consistency c1feeds c1ops id 2 (by decide)⟩

end Reader
